import Mathlib

set_option maxRecDepth 10000

/-!
Verification development for the ieee754-viewer core: the IEEE-754 bit-field
extractor (`src/infrastructure/ieee754.ts`) and the tri-state floating-point
input classifier (`src/domain/parseFloatingInput.ts`).

JavaScript doubles are embedded as their 64-bit IEEE-754 binary64 bit
patterns (`Nat` below `2^64`).  The platform primitives the source relies on
(`DataView.setFloat32` narrowing, `Number(text)` decimal-to-double
conversion) are modelled by exact integer arithmetic implementing the
IEEE-754 round-to-nearest, ties-to-even rules.  All recursion is structural
(fuel-bounded) so every definition evaluates by kernel reduction.
-/

namespace Viewer

/-- Digit character for bases up to 16 (lowercase), as produced by JS
`Number.prototype.toString`. -/
def digitChar (n : Nat) : Char :=
  if n < 10 then Char.ofNat (48 + n) else Char.ofNat (87 + n)

/-- Numeric value of a digit character produced by `digitChar`. -/
def charVal (c : Char) : Nat :=
  if 97 ≤ c.toNat then c.toNat - 87 else c.toNat - 48

/-- Least-significant-first base-`b` digit list of `n` (fuel-bounded). -/
def digitsRevAux (b : Nat) : Nat → Nat → List Char
  | 0, _ => []
  | fuel+1, n => if n = 0 then [] else digitChar (n % b) :: digitsRevAux b fuel (n / b)

/-- JS `n.toString(b)` for natural `n < b^64`: base-`b` digits, no leading
zeros, `"0"` for zero. -/
def natToBase (b n : Nat) : List Char :=
  if n = 0 then ['0'] else (digitsRevAux b 64 n).reverse

/-- JS `String.prototype.padStart(w, "0")`. -/
def padZeros (w : Nat) (s : List Char) : List Char :=
  List.replicate (w - s.length) '0' ++ s

/-- `toBitsString32` from the source: 32-bit binary string of `u >>> 0`. -/
def toBitsString32 (u : Nat) : List Char := padZeros 32 (natToBase 2 (u % 2^32))

/-- `toHex32` from the source: 8 lowercase hex chars of `u >>> 0`. -/
def toHex32 (u : Nat) : List Char := padZeros 8 (natToBase 16 (u % 2^32))

/-- `toHex64` from the source. -/
def toHex64 (hi lo : Nat) : List Char := toHex32 hi ++ toHex32 lo

/-- `toBitsString64` from the source. -/
def toBitsString64 (hi lo : Nat) : List Char := toBitsString32 hi ++ toBitsString32 lo

/-- Left-to-right chunks of `n` characters (fuel-bounded; fuel `s.length`). -/
def chunkAux (n : Nat) : Nat → List Char → List (List Char)
  | 0, _ => []
  | _, [] => []
  | fuel+1, s => s.take n :: chunkAux n fuel (s.drop n)

/-- The chunk list underlying `groupEvery` from the source. -/
def groupChunks (n : Nat) (s : List Char) : List (List Char) := chunkAux n s.length s

/-- `groupEvery` from the source: split `s` every `n` chars and join with `sep`
(the last chunk may be shorter). -/
def groupEvery (s : List Char) (n : Nat) (sep : List Char) : List Char :=
  List.intercalate sep (groupChunks n s)

/-- Value of a base-`b` digit string (most significant first). -/
def listVal (b : Nat) (l : List Char) : Nat := l.foldl (fun a c => b * a + charVal c) 0

/-- `bitsToHexPadded` from the source: left-pad the bit string to a multiple
of 4 and convert each nibble to one hex char. -/
def bitsToHexPadded (bits : List Char) : List Char :=
  let pad := (4 - bits.length % 4) % 4
  let padded := List.replicate pad '0' ++ bits
  (groupChunks 4 padded).map (fun nib => digitChar (listVal 2 nib))

/-- The chunk sizes produced by `chunkAux` on a string of the given length
(mirrors `chunkAux` on lengths). -/
def lenChunksAux (n : Nat) : Nat → Nat → List Nat
  | 0, _ => []
  | _, 0 => []
  | fuel+1, m => min n m :: lenChunksAux n fuel (m - n)

/-- The chunk sizes produced by `groupChunks` on a string of length `m`. -/
def lenChunks (n m : Nat) : List Nat := lenChunksAux n m m

/-- `FloatKind` from the source. -/
inductive FloatKind
  | Zero
  | Subnormal
  | Normal
  | Infinity
  | NaN
deriving DecidableEq, Repr

/-- `classifyFloat32` from the source. -/
def classifyFloat32 (exp mant : Nat) : FloatKind :=
  if exp = 0 then (if mant = 0 then .Zero else .Subnormal)
  else if exp = 0xff then (if mant = 0 then .Infinity else .NaN)
  else .Normal

/-- `classifyFloat64` from the source. -/
def classifyFloat64 (exp mantHi mantLo : Nat) : FloatKind :=
  if exp = 0 then (if mantHi = 0 ∧ mantLo = 0 then .Zero else .Subnormal)
  else if exp = 0x7ff then (if mantHi = 0 ∧ mantLo = 0 then .Infinity else .NaN)
  else .Normal

/-- `Float32BitsInfo` from the source (strings as `List Char`). -/
structure Float32BitsInfo where
  kind : FloatKind
  signBit : Nat
  exponentBits : Nat
  mantissaBits : Nat
  exponentUnbiased : Option Int
  hex : List Char
  bits : List Char
  hexGrouped : List Char
  bitsGrouped8 : List Char
  signBitsStr : List Char
  exponentBitsStr : List Char
  mantissaBitsStr : List Char
  exponentGrouped4 : List Char
  mantissaGrouped4 : List Char
  payloadBitsStr : List Char
  payloadGrouped4 : List Char
  payloadHexPadded : List Char
deriving DecidableEq

/-- `Float64BitsInfo` from the source (strings as `List Char`). -/
structure Float64BitsInfo where
  kind : FloatKind
  signBit : Nat
  exponentBits : Nat
  mantissaHigh : Nat
  mantissaLow : Nat
  exponentUnbiased : Option Int
  hex : List Char
  bits : List Char
  hexGrouped : List Char
  bitsGrouped8 : List Char
  signBitsStr : List Char
  exponentBitsStr : List Char
  mantissaBitsStr : List Char
  exponentGrouped4 : List Char
  mantissaGrouped4 : List Char
  payloadBitsStr : List Char
  payloadGrouped4 : List Char
  payloadHexPadded : List Char
deriving DecidableEq

/-- Body of `float32Bits` from the source, after the `DataView` round trip
has produced the 32-bit pattern `u32`. -/
def float32BitsOfU32 (u32 : Nat) : Float32BitsInfo :=
  let u := u32 % 2^32
  let signBit := u / 2^31 % 2
  let exponentBits := u / 2^23 % 2^8
  let mantissaBits := u % 2^23
  let kind := classifyFloat32 exponentBits mantissaBits
  let exponentUnbiased : Option Int :=
    if kind = .Normal then some ((exponentBits : Int) - 127)
    else if kind = .Subnormal then some (-126)
    else none
  let bits := toBitsString32 u
  let hex := toHex32 u
  let signBitsStr := bits.take 1
  let exponentBitsStr := (bits.drop 1).take 8
  let mantissaBitsStr := bits.drop 9
  let hexGrouped := groupEvery hex 2 [' ']
  let bitsGrouped8 := groupEvery bits 8 [' ']
  let exponentGrouped4 := groupEvery exponentBitsStr 4 [' ']
  let mantissaGrouped4 := groupEvery mantissaBitsStr 4 [' ']
  let payloadBitsStr := mantissaBitsStr
  let payloadGrouped4 := mantissaGrouped4
  let payloadHexPadded := padZeros 6 (bitsToHexPadded payloadBitsStr)
  { kind, signBit, exponentBits, mantissaBits, exponentUnbiased, hex, bits, hexGrouped,
    bitsGrouped8, signBitsStr, exponentBitsStr, mantissaBitsStr, exponentGrouped4,
    mantissaGrouped4, payloadBitsStr, payloadGrouped4, payloadHexPadded }

/-- Body of `float64Bits` from the source, on the 64-bit pattern of the
input double. -/
def float64BitsOfU64 (u : Nat) : Float64BitsInfo :=
  let p := u % 2^64
  let hi := p / 2^32
  let lo := p % 2^32
  let signBit := hi / 2^31 % 2
  let exponentBits := hi / 2^20 % 2^11
  let mantissaHigh := hi % 2^20
  let mantissaLow := lo
  let kind := classifyFloat64 exponentBits mantissaHigh mantissaLow
  let exponentUnbiased : Option Int :=
    if kind = .Normal then some ((exponentBits : Int) - 1023)
    else if kind = .Subnormal then some (-1022)
    else none
  let bits := toBitsString64 hi lo
  let hex := toHex64 hi lo
  let signBitsStr := bits.take 1
  let exponentBitsStr := (bits.drop 1).take 11
  let mantissaBitsStr := bits.drop 12
  let hexGrouped := groupEvery hex 2 [' ']
  let bitsGrouped8 := groupEvery bits 8 [' ']
  let exponentGrouped4 :=
    exponentBitsStr.take 3 ++ ' ' :: ((exponentBitsStr.drop 3).take 4)
      ++ ' ' :: ((exponentBitsStr.drop 7).take 4)
  let mantissaGrouped4 := groupEvery mantissaBitsStr 4 [' ']
  let payloadBitsStr := mantissaBitsStr
  let payloadGrouped4 := mantissaGrouped4
  let payloadHexPadded := padZeros 13 (bitsToHexPadded payloadBitsStr)
  { kind, signBit, exponentBits, mantissaHigh, mantissaLow, exponentUnbiased, hex, bits,
    hexGrouped, bitsGrouped8, signBitsStr, exponentBitsStr, mantissaBitsStr,
    exponentGrouped4, mantissaGrouped4, payloadBitsStr, payloadGrouped4, payloadHexPadded }

/-- Bit length of `n` (fuel-bounded, fuel `n`). -/
def bitlenAux : Nat → Nat → Nat
  | 0, _ => 0
  | fuel+1, n => if n = 0 then 0 else bitlenAux fuel (n / 2) + 1

/-- Bit length: `0` for `0`, otherwise the unique `k` with `2^(k-1) ≤ n < 2^k`. -/
def bitlen (n : Nat) : Nat := bitlenAux n n

/-- Round `a / b` to the nearest integer, ties to even. -/
def roundRatNE (a b : Nat) : Nat :=
  let q := a / b
  let r := a % b
  if b < 2 * r then q + 1
  else if 2 * r < b then q
  else if q % 2 = 0 then q else q + 1

/-- The floor of the base-2 logarithm of `num / den` (both positive): the
unique `e` with `2^e ≤ num/den < 2^(e+1)`. -/
def fpExp (num den : Nat) : Int :=
  let e0 : Int := (bitlen num : Int) - (bitlen den : Int)
  if den * 2^(e0.toNat) ≤ num * 2^((-e0).toNat) then e0 else e0 - 1

/-- Round the rational `num / den` (`den > 0`; zero iff `num = 0`) to the
nearest IEEE-754 binary float with `eb` exponent bits and `mb` mantissa
bits (round-to-nearest, ties-to-even, overflow to infinity, gradual
underflow); returns the bit pattern with sign bit `sgn`.  This models the
platform's float conversion primitives. -/
def binOfRat (eb mb : Nat) (sgn num den : Nat) : Nat :=
  let bias : Nat := 2^(eb-1) - 1
  let sgnShift : Nat := sgn * 2^(eb + mb)
  if num = 0 then sgnShift
  else
    let e : Int := fpExp num den
    if e < 1 - (bias : Int) then
      let f := roundRatNE (num * 2^(bias + mb - 1)) den
      sgnShift + f
    else
      let shift : Int := (mb : Int) - e
      let sig := roundRatNE (num * 2^(shift.toNat)) (den * 2^((-shift).toNat))
      let sig2 := if sig = 2^(mb+1) then 2^mb else sig
      let e2 : Int := if sig = 2^(mb+1) then e + 1 else e
      let be : Int := e2 + (bias : Int)
      if (2^eb - 1 : Int) ≤ be then sgnShift + (2^eb - 1) * 2^mb
      else sgnShift + be.toNat * 2^mb + (sig2 - 2^mb)

/-- The `DataView` round trip at the top of `float32Bits`: narrow a binary64
pattern to the binary32 pattern of the same value (IEEE round-to-nearest-even;
NaNs are quieted, payload truncated). -/
def f64ToF32Pattern (p64 : Nat) : Nat :=
  let p := p64 % 2^64
  let s := p / 2^63
  let e : Nat := p / 2^52 % 2^11
  let m := p % 2^52
  if e = 2047 then
    if m = 0 then s * 2^31 + 255 * 2^23
    else s * 2^31 + 255 * 2^23 + 2^22 + m / 2^29
  else
    let M := if e = 0 then m else 2^52 + m
    let E : Int := (if e = 0 then 1 else (e : Int)) - 1075
    binOfRat 8 23 s (M * 2^(E.toNat)) (2^((-E).toNat))

/-- `float32Bits` from the source: `v` is the binary64 pattern of the input
double; the `DataView` write/read narrows it to binary32. -/
def float32Bits (v : Nat) : Float32BitsInfo := float32BitsOfU32 (f64ToF32Pattern v)

/-- `float64Bits` from the source: `v` is the binary64 pattern of the input
double. -/
def float64Bits (v : Nat) : Float64BitsInfo := float64BitsOfU64 v

/-! ### The input classifier (`src/domain/parseFloatingInput.ts`) -/

/-- `ParseResult` from the source; `Valid` carries the parsed double as its
binary64 bit pattern. -/
inductive ParseResult
  | Valid (value : Nat) (normalizedText : List Char)
  | Incomplete (reason : List Char) (normalizedText : List Char)
  | Invalid (reason : List Char) (normalizedText : List Char)
deriving DecidableEq, Repr

/-- `ParseOptions` from the source, with the defaults already merged in
(`Required<ParseOptions>`). -/
structure ParseOptions where
  allowLeadingPlus : Bool := true
  allowInfinitySynonyms : Bool := true
  allowNaN : Bool := true
  caseInsensitiveSpecials : Bool := true
deriving DecidableEq, Repr

/-- Whitespace removed by JS `String.prototype.trim`. -/
def isJsSpace (c : Char) : Bool :=
  c = ' ' || c = '\t' || c = '\n' || c = '\r' || c = '\x0b' || c = '\x0c' ||
  c = '\u00a0' || c = '\u2028' || c = '\u2029' || c = '\u3000' || c = '\ufeff'

/-- JS `String.prototype.trim` on a char list. -/
def trimList (l : List Char) : List Char :=
  ((l.dropWhile isJsSpace).reverse.dropWhile isJsSpace).reverse

/-- One character of `[A-Za-z]`. -/
def isAsciiLetter (c : Char) : Bool :=
  (65 ≤ c.toNat && c.toNat ≤ 90) || (97 ≤ c.toNat && c.toNat ≤ 122)

/-- One character of `\d`, i.e. `[0-9]`. -/
def isDigitChar (c : Char) : Bool := 48 ≤ c.toNat && c.toNat ≤ 57

/-- ASCII lowercasing, as `String.prototype.toLowerCase` acts on the
characters relevant here. -/
def toLowerChar (c : Char) : Char :=
  if 65 ≤ c.toNat ∧ c.toNat ≤ 90 then Char.ofNat (c.toNat + 32) else c

/-- `isAlphaOnly` from the source: `/^[A-Za-z]+$/`. -/
def isAlphaOnly (l : List Char) : Bool := !l.isEmpty && l.all isAsciiLetter

/-- The sign split `/^([+-])?(.*)$/` used by `parseSpecial` (and the
optional-sign prefix of all the numeric regexes). -/
def splitSign (l : List Char) : List Char × List Char :=
  match l with
  | '+' :: r => (['+'], r)
  | '-' :: r => (['-'], r)
  | _ => ([], l)

/-- Binary64 pattern of the JS value `NaN` (`Number.NaN`). -/
def jsNaNPattern : Nat := 0x7ff8000000000000

/-- Binary64 pattern of `+Infinity`. -/
def posInfPattern : Nat := 0x7ff0000000000000

/-- Binary64 pattern of `-Infinity`. -/
def negInfPattern : Nat := 0xfff0000000000000

/-- `parseSpecial` from the source: handles `NaN` / `Inf` / `Infinity`,
complete or still being typed. -/
def parseSpecial (text : List Char) (o : ParseOptions) : Option ParseResult :=
  let sign := (splitSign text).1
  let body := (splitSign text).2
  let cmp := if o.caseInsensitiveSpecials then body.map toLowerChar else body
  if o.allowNaN && (cmp == (if o.caseInsensitiveSpecials then "nan".data else "NaN".data)) then
    some (.Valid jsNaNPattern (sign ++ "NaN".data))
  else if o.allowNaN && o.caseInsensitiveSpecials && (cmp.isPrefixOf "nan".data)
      && decide (cmp.length < 3) && isAlphaOnly body then
    some (.Incomplete "incomplete NaN token".data text)
  else if o.allowInfinitySynonyms
      && (cmp == (if o.caseInsensitiveSpecials then "inf".data else "Inf".data)
          || cmp == (if o.caseInsensitiveSpecials then "infinity".data else "Infinity".data)) then
    some (.Valid (if sign == ['-'] then negInfPattern else posInfPattern)
      (sign ++ "Infinity".data))
  else if o.allowInfinitySynonyms && o.caseInsensitiveSpecials
      && (cmp.isPrefixOf "infinity".data) && decide (cmp.length < 8) && isAlphaOnly body then
    some (.Incomplete "incomplete Infinity token".data text)
  else if o.allowInfinitySynonyms && o.caseInsensitiveSpecials
      && (cmp.isPrefixOf "inf".data) && decide (cmp.length < 3) && isAlphaOnly body then
    some (.Incomplete "incomplete Inf token".data text)
  else
    none

/-- The mantissa alternative `(\d+(\.\d*)?|\.\d+)` of the numeric regexes:
either `.` followed by one or more digits, or one or more digits optionally
followed by `.` and zero or more digits. -/
def matchesMantissa (l : List Char) : Bool :=
  if l.head? = some '.' then !l.tail.isEmpty && l.tail.all isDigitChar
  else
    !(l.takeWhile isDigitChar).isEmpty &&
      ((l.dropWhile isDigitChar).isEmpty ||
        ((l.dropWhile isDigitChar).head? = some '.'
          && (l.dropWhile isDigitChar).tail.all isDigitChar))

/-- `[+-]?(\d+(\.\d*)?|\.\d+)` — a signed mantissa. -/
def matchesSignedMantissa (l : List Char) : Bool := matchesMantissa (splitSign l).2

/-- `/^[+-]?(\d+(\.\d*)?|\.\d+)[eE]$/` from `isIncompleteNumberToken`. -/
def matchesExpMarkerOnly (l : List Char) : Bool :=
  match l.getLast? with
  | some c => (c == 'e' || c == 'E') && matchesSignedMantissa l.dropLast
  | none => false

/-- `/^[+-]?(\d+(\.\d*)?|\.\d+)[eE][+-]$/` from `isIncompleteNumberToken`. -/
def matchesExpSignOnly (l : List Char) : Bool :=
  match l.getLast? with
  | some c => (c == '+' || c == '-') && matchesExpMarkerOnly l.dropLast
  | none => false

/-- `isIncompleteNumberToken` from the source. -/
def isIncompleteNumberToken (text : List Char) (o : ParseOptions) : Option (List Char) :=
  if text == ['-'] || (o.allowLeadingPlus && text == ['+']) then some "sign only".data
  else if text == ['.'] || text == ['-', '.'] || (o.allowLeadingPlus && text == ['+', '.']) then
    some "dot only".data
  else if matchesExpMarkerOnly text then some "exponent marker only".data
  else if matchesExpSignOnly text then some "exponent sign only".data
  else none

/-- Whether a character is an exponent marker `e`/`E`. -/
def isExpChar (c : Char) : Bool := c == 'e' || c == 'E'

/-- The full-literal regex `/^[+-]?(\d+(\.\d*)?|\.\d+)([eE][+-]?\d+)?$/`:
split the optional sign, split at the first exponent marker, check both
parts. -/
def matchesDecimal (l : List Char) : Bool :=
  let core := (splitSign l).2
  let mant := core.takeWhile (fun c => !isExpChar c)
  let rest := core.dropWhile (fun c => !isExpChar c)
  matchesMantissa mant &&
    (match rest with
     | [] => true
     | _ :: es =>
       let es' := (splitSign es).2
       !es'.isEmpty && es'.all isDigitChar)

/-- `isValidDecimalNumberSyntax` from the source. -/
def isValidDecimalNumberSyntax (text : List Char) (o : ParseOptions) : Bool :=
  if !o.allowLeadingPlus && (splitSign text).1 == ['+'] then false
  else matchesDecimal text

/-- Value of a decimal digit string. -/
def digitsToNat (l : List Char) : Nat := l.foldl (fun a c => 10 * a + (c.toNat - 48)) 0

/-- JS `Number(text)` on a string matching the decimal-literal grammar:
correctly rounded decimal-to-binary64 conversion (overflow saturates to
±Infinity, underflow to signed zero), returning the bit pattern. -/
def jsNumberOfDecimal (text : List Char) : Nat :=
  let sgn : Nat := if (splitSign text).1 == ['-'] then 1 else 0
  let core := (splitSign text).2
  let mant := core.takeWhile (fun c => !isExpChar c)
  let rest := core.dropWhile (fun c => !isExpChar c)
  let ipart := mant.takeWhile isDigitChar
  let dotfrac := mant.dropWhile isDigitChar
  let fpart := match dotfrac with
    | '.' :: fs => fs
    | _ => []
  let epart := match rest with
    | _ :: es => es
    | [] => []
  let esgnNeg : Bool := (splitSign epart).1 == ['-']
  let edigits := (splitSign epart).2
  let d := digitsToNat (ipart ++ fpart)
  let x : Int := (if esgnNeg then -(digitsToNat edigits : Int) else (digitsToNat edigits : Int))
    - (fpart.length : Int)
  if d = 0 then sgn * 2^63
  else binOfRat 11 52 sgn (d * 10^(x.toNat)) (10^((-x).toNat))

/-- Whether a binary64 pattern is a NaN (`Number.isNaN`). -/
def isNaNPattern (p : Nat) : Bool := p / 2^52 % 2^11 == 2047 && !(p % 2^52 == 0)

/-- Whether a binary64 pattern is finite (`Number.isFinite`). -/
def isFinitePattern (p : Nat) : Bool := !(p / 2^52 % 2^11 == 2047)

/-- `normalizeNumericText` from the source. -/
def normalizeNumericText (text : List Char) (o : ParseOptions) : List Char :=
  match text with
  | '+' :: r => if o.allowLeadingPlus then r else text
  | _ => text

/-- `ParseFloatingInput` from the source. -/
def ParseFloatingInput (input : List Char) (o : ParseOptions := {}) : ParseResult :=
  let text := trimList input
  if text.isEmpty then .Incomplete "empty".data []
  else if !o.allowLeadingPlus && (splitSign text).1 == ['+'] then
    .Invalid "leading plus is not allowed".data text
  else
    match parseSpecial text o with
    | some r => r
    | none =>
      match isIncompleteNumberToken text o with
      | some reason => .Incomplete reason text
      | none =>
        if !isValidDecimalNumberSyntax text o then
          .Invalid "invalid numeric syntax".data text
        else
          let value := jsNumberOfDecimal text
          if isNaNPattern value then .Invalid "parsed to NaN".data text
          else if !o.allowInfinitySynonyms && !isFinitePattern value then
            .Invalid "infinity is not allowed".data text
          else
            .Valid value (normalizeNumericText text o)

/-! ### Helper lemmas -/

theorem classifyFloat32_cases (e m : Nat) :
    (e = 0 ∧ m = 0 → classifyFloat32 e m = .Zero) ∧
    (e = 0 ∧ m ≠ 0 → classifyFloat32 e m = .Subnormal) ∧
    (e = 255 ∧ m = 0 → classifyFloat32 e m = .Infinity) ∧
    (e = 255 ∧ m ≠ 0 → classifyFloat32 e m = .NaN) ∧
    (e ≠ 0 ∧ e ≠ 255 → classifyFloat32 e m = .Normal) := by
  refine ⟨?_, ?_, ?_, ?_, ?_⟩
  · rintro ⟨rfl, rfl⟩; rfl
  · rintro ⟨rfl, hm⟩; simp [classifyFloat32, hm]
  · rintro ⟨rfl, rfl⟩; rfl
  · rintro ⟨rfl, hm⟩; simp [classifyFloat32, hm]
  · rintro ⟨h0, h255⟩; simp [classifyFloat32, h0, h255]

theorem classifyFloat64_cases (e mh ml : Nat) :
    (e = 0 ∧ mh = 0 ∧ ml = 0 → classifyFloat64 e mh ml = .Zero) ∧
    (e = 0 ∧ ¬(mh = 0 ∧ ml = 0) → classifyFloat64 e mh ml = .Subnormal) ∧
    (e = 2047 ∧ mh = 0 ∧ ml = 0 → classifyFloat64 e mh ml = .Infinity) ∧
    (e = 2047 ∧ ¬(mh = 0 ∧ ml = 0) → classifyFloat64 e mh ml = .NaN) ∧
    (e ≠ 0 ∧ e ≠ 2047 → classifyFloat64 e mh ml = .Normal) := by
  refine ⟨?_, ?_, ?_, ?_, ?_⟩
  · rintro ⟨rfl, rfl, rfl⟩; rfl
  · rintro ⟨rfl, hm⟩; simp [classifyFloat64, hm]
  · rintro ⟨rfl, rfl, rfl⟩; rfl
  · rintro ⟨rfl, hm⟩; simp [classifyFloat64, hm]
  · rintro ⟨h0, h2047⟩; simp [classifyFloat64, h0, h2047]

theorem float32BitsOfU32_kind (u : Nat) :
    (float32BitsOfU32 u).kind
      = classifyFloat32 (u % 2^32 / 2^23 % 2^8) (u % 2^32 % 2^23) := rfl

theorem float32BitsOfU32_exponentBits (u : Nat) :
    (float32BitsOfU32 u).exponentBits = u % 2^32 / 2^23 % 2^8 := rfl

theorem float32BitsOfU32_mantissaBits (u : Nat) :
    (float32BitsOfU32 u).mantissaBits = u % 2^32 % 2^23 := rfl

theorem float64BitsOfU64_kind (u : Nat) :
    (float64BitsOfU64 u).kind
      = classifyFloat64 (u % 2^64 / 2^32 / 2^20 % 2^11) (u % 2^64 / 2^32 % 2^20)
          (u % 2^64 % 2^32) := rfl

theorem float64BitsOfU64_exponentBits (u : Nat) :
    (float64BitsOfU64 u).exponentBits = u % 2^64 / 2^32 / 2^20 % 2^11 := rfl

theorem float64BitsOfU64_mantissaHigh (u : Nat) :
    (float64BitsOfU64 u).mantissaHigh = u % 2^64 / 2^32 % 2^20 := rfl

theorem float64BitsOfU64_mantissaLow (u : Nat) :
    (float64BitsOfU64 u).mantissaLow = u % 2^64 % 2^32 := rfl

theorem charVal_digitChar : ∀ n : Nat, n < 16 → charVal (digitChar n) = n := by decide

theorem listVal_acc (b : Nat) (l : List Char) :
    ∀ a : Nat, l.foldl (fun a c => b * a + charVal c) a = a * b ^ l.length + listVal b l := by
  induction l with
  | nil => intro a; simp [listVal]
  | cons c t ih =>
    intro a
    have hv : listVal b (c :: t) = t.foldl (fun a c => b * a + charVal c) (charVal c) := by
      simp [listVal]
    rw [List.foldl_cons, ih, hv, ih (charVal c), List.length_cons]
    ring

theorem listVal_append (b : Nat) (l1 l2 : List Char) :
    listVal b (l1 ++ l2) = listVal b l1 * b ^ l2.length + listVal b l2 := by
  unfold listVal
  rw [List.foldl_append]
  exact listVal_acc b l2 _

theorem listVal_replicate_zero (b k : Nat) : listVal b (List.replicate k '0') = 0 := by
  induction k with
  | zero => rfl
  | succ n ih =>
    have h : listVal b (List.replicate (n+1) '0')
        = (List.replicate n '0').foldl (fun a c => b * a + charVal c) (b * 0 + charVal '0') := by
      simp [listVal, List.replicate_succ]
    have hc : charVal '0' = 0 := rfl
    rw [h, hc] at *
    simpa [listVal] using ih

theorem padZeros_val (b w : Nat) (s : List Char) : listVal b (padZeros w s) = listVal b s := by
  unfold padZeros
  rw [listVal_append, listVal_replicate_zero]
  ring

theorem padZeros_length (w : Nat) (s : List Char) (h : s.length ≤ w) :
    (padZeros w s).length = w := by
  simp [padZeros]
  omega

theorem digitsRevAux_foldr (b : Nat) (hb : 2 ≤ b) (hb16 : b ≤ 16) :
    ∀ fuel n, n < b ^ fuel →
      (digitsRevAux b fuel n).foldr (fun c a => b * a + charVal c) 0 = n := by
  intro fuel
  induction fuel with
  | zero =>
    intro n hn
    rw [pow_zero] at hn
    have : n = 0 := by omega
    simp [digitsRevAux, this]
  | succ f ih =>
    intro n hn
    by_cases h0 : n = 0
    · simp [digitsRevAux, h0]
    · rw [pow_succ] at hn
      have hdiv : n / b < b ^ f := Nat.div_lt_of_lt_mul (by rw [Nat.mul_comm] at hn; exact hn)
      simp only [digitsRevAux, h0, if_false, List.foldr_cons]
      rw [ih _ hdiv, charVal_digitChar _ (lt_of_lt_of_le (Nat.mod_lt _ (by omega)) hb16)]
      exact Nat.div_add_mod n b

theorem digitsRevAux_length (b : Nat) (_hb : 2 ≤ b) :
    ∀ fuel n k, n < b ^ k → (digitsRevAux b fuel n).length ≤ k := by
  intro fuel
  induction fuel with
  | zero => intro n k _; simp [digitsRevAux]
  | succ f ih =>
    intro n k hn
    by_cases h0 : n = 0
    · simp [digitsRevAux, h0]
    · have hk : k ≠ 0 := by
        rintro rfl
        rw [pow_zero] at hn
        omega
      obtain ⟨k', rfl⟩ : ∃ k', k = k' + 1 := ⟨k - 1, by omega⟩
      rw [pow_succ] at hn
      have hdiv : n / b < b ^ k' := Nat.div_lt_of_lt_mul (by rw [Nat.mul_comm] at hn; exact hn)
      simp only [digitsRevAux, h0, if_false, List.length_cons]
      exact Nat.succ_le_succ (ih _ _ hdiv)

theorem natToBase_val (b n : Nat) (hb : 2 ≤ b) (hb16 : b ≤ 16) (hn : n < b ^ 64) :
    listVal b (natToBase b n) = n := by
  unfold natToBase
  by_cases h0 : n = 0
  · have hc : charVal '0' = 0 := rfl
    simp [h0, listVal, hc]
  · rw [if_neg h0]
    unfold listVal
    rw [List.foldl_reverse]
    exact digitsRevAux_foldr b hb hb16 64 n hn

theorem natToBase_length (b n k : Nat) (hb : 2 ≤ b) (hk : 1 ≤ k) (hn : n < b ^ k) :
    (natToBase b n).length ≤ k := by
  unfold natToBase
  by_cases h0 : n = 0
  · simp [h0]; omega
  · rw [if_neg h0, List.length_reverse]
    exact digitsRevAux_length b hb 64 n k hn

theorem toBitsString32_val (u : Nat) (hu : u < 2 ^ 32) : listVal 2 (toBitsString32 u) = u := by
  unfold toBitsString32
  rw [padZeros_val, Nat.mod_eq_of_lt hu]
  exact natToBase_val 2 u (by norm_num) (by norm_num) (lt_trans hu (by norm_num))

theorem toBitsString32_length (u : Nat) : (toBitsString32 u).length = 32 := by
  unfold toBitsString32
  exact padZeros_length 32 _ (natToBase_length 2 _ 32 (by norm_num) (by norm_num)
    (Nat.mod_lt _ (by norm_num)))

theorem toHex32_val (u : Nat) (hu : u < 2 ^ 32) : listVal 16 (toHex32 u) = u := by
  unfold toHex32
  rw [padZeros_val, Nat.mod_eq_of_lt hu]
  exact natToBase_val 16 u (by norm_num) (by norm_num) (lt_trans hu (by norm_num))

theorem toHex32_length (u : Nat) : (toHex32 u).length = 8 := by
  unfold toHex32
  refine padZeros_length 8 _ (natToBase_length 16 _ 8 (by norm_num) (by norm_num) ?_)
  have : (16 : Nat) ^ 8 = 2 ^ 32 := by norm_num
  rw [this]
  exact Nat.mod_lt _ (by norm_num)

theorem float64BitsOfU64_signBit (u : Nat) :
    (float64BitsOfU64 u).signBit = u % 2^64 / 2^32 / 2^31 % 2 := rfl

theorem float64BitsOfU64_bits (u : Nat) :
    (float64BitsOfU64 u).bits = toBitsString64 (u % 2^64 / 2^32) (u % 2^64 % 2^32) := rfl

theorem float64BitsOfU64_hex (u : Nat) :
    (float64BitsOfU64 u).hex = toHex64 (u % 2^64 / 2^32) (u % 2^64 % 2^32) := rfl

theorem float64BitsOfU64_signBitsStr (u : Nat) :
    (float64BitsOfU64 u).signBitsStr = (float64BitsOfU64 u).bits.take 1 := rfl

theorem float64BitsOfU64_exponentBitsStr (u : Nat) :
    (float64BitsOfU64 u).exponentBitsStr = ((float64BitsOfU64 u).bits.drop 1).take 11 := rfl

theorem float64BitsOfU64_mantissaBitsStr (u : Nat) :
    (float64BitsOfU64 u).mantissaBitsStr = (float64BitsOfU64 u).bits.drop 12 := rfl

theorem chunkAux_flatten (n : Nat) (hn : 0 < n) :
    ∀ fuel s, s.length ≤ fuel → (chunkAux n fuel s).flatten = s := by
  intro fuel
  induction fuel with
  | zero =>
    intro s hs
    have : s = [] := List.eq_nil_of_length_eq_zero (by omega)
    simp [this, chunkAux]
  | succ f ih =>
    intro s hs
    match s with
    | [] => simp [chunkAux]
    | c :: t =>
      have hlen : ((c :: t).drop n).length ≤ f := by
        rw [List.length_drop]
        simp only [List.length_cons] at hs ⊢
        omega
      simp only [chunkAux, List.flatten_cons]
      rw [ih _ hlen, List.take_append_drop]

theorem groupChunks_flatten (n : Nat) (hn : 0 < n) (s : List Char) :
    (groupChunks n s).flatten = s :=
  chunkAux_flatten n hn s.length s le_rfl

theorem chunkAux_map_length (n : Nat) (_hn : 0 < n) :
    ∀ fuel s, (chunkAux n fuel s).map List.length = lenChunksAux n fuel s.length := by
  intro fuel
  induction fuel with
  | zero => intro s; simp [chunkAux, lenChunksAux]
  | succ f ih =>
    intro s
    match s with
    | [] => simp [chunkAux, lenChunksAux]
    | c :: t =>
      have h1 : (c :: t).length = t.length + 1 := List.length_cons c t
      simp only [chunkAux, List.map_cons, List.length_take, h1]
      have h2 : lenChunksAux n (f+1) (t.length + 1)
          = min n (t.length + 1) :: lenChunksAux n f (t.length + 1 - n) := rfl
      rw [h2, ih]
      congr 1
      rw [List.length_drop, h1]

theorem groupChunks_map_length (n : Nat) (hn : 0 < n) (s : List Char) :
    (groupChunks n s).map List.length = lenChunks n s.length :=
  chunkAux_map_length n hn s.length s

theorem groupChunks_count (n : Nat) (hn : 0 < n) (s : List Char) :
    (groupChunks n s).length = (lenChunks n s.length).length := by
  rw [← groupChunks_map_length n hn s, List.length_map]

theorem bitsToHexPadded_length (s : List Char) :
    (bitsToHexPadded s).length = (lenChunks 4 ((4 - s.length % 4) % 4 + s.length)).length := by
  unfold bitsToHexPadded
  rw [List.length_map, groupChunks_count 4 (by norm_num), List.length_append,
    List.length_replicate]

theorem float32BitsOfU32_bits (u : Nat) :
    (float32BitsOfU32 u).bits = toBitsString32 (u % 2^32) := rfl

theorem float32BitsOfU32_hex (u : Nat) :
    (float32BitsOfU32 u).hex = toHex32 (u % 2^32) := rfl

theorem float32BitsOfU32_mantissaBitsStr (u : Nat) :
    (float32BitsOfU32 u).mantissaBitsStr = (float32BitsOfU32 u).bits.drop 9 := rfl

theorem float32BitsOfU32_exponentBitsStr (u : Nat) :
    (float32BitsOfU32 u).exponentBitsStr = ((float32BitsOfU32 u).bits.drop 1).take 8 := rfl

theorem float32BitsOfU32_mantissaGrouped4 (u : Nat) :
    (float32BitsOfU32 u).mantissaGrouped4
      = groupEvery (float32BitsOfU32 u).mantissaBitsStr 4 [' '] := rfl

theorem float32BitsOfU32_hexGrouped (u : Nat) :
    (float32BitsOfU32 u).hexGrouped = groupEvery (float32BitsOfU32 u).hex 2 [' '] := rfl

theorem float32BitsOfU32_payloadBitsStr (u : Nat) :
    (float32BitsOfU32 u).payloadBitsStr = (float32BitsOfU32 u).mantissaBitsStr := rfl

theorem float32BitsOfU32_payloadGrouped4 (u : Nat) :
    (float32BitsOfU32 u).payloadGrouped4 = (float32BitsOfU32 u).mantissaGrouped4 := rfl

theorem float32BitsOfU32_payloadHexPadded (u : Nat) :
    (float32BitsOfU32 u).payloadHexPadded
      = padZeros 6 (bitsToHexPadded (float32BitsOfU32 u).mantissaBitsStr) := rfl

theorem float64BitsOfU64_mantissaGrouped4 (u : Nat) :
    (float64BitsOfU64 u).mantissaGrouped4
      = groupEvery (float64BitsOfU64 u).mantissaBitsStr 4 [' '] := rfl

theorem float64BitsOfU64_exponentGrouped4 (u : Nat) :
    (float64BitsOfU64 u).exponentGrouped4
      = (float64BitsOfU64 u).exponentBitsStr.take 3
          ++ ' ' :: (((float64BitsOfU64 u).exponentBitsStr.drop 3).take 4)
          ++ ' ' :: (((float64BitsOfU64 u).exponentBitsStr.drop 7).take 4) := rfl

theorem float64BitsOfU64_hexGrouped (u : Nat) :
    (float64BitsOfU64 u).hexGrouped = groupEvery (float64BitsOfU64 u).hex 2 [' '] := rfl

theorem float64BitsOfU64_payloadBitsStr (u : Nat) :
    (float64BitsOfU64 u).payloadBitsStr = (float64BitsOfU64 u).mantissaBitsStr := rfl

theorem float64BitsOfU64_payloadGrouped4 (u : Nat) :
    (float64BitsOfU64 u).payloadGrouped4 = (float64BitsOfU64 u).mantissaGrouped4 := rfl

theorem float64BitsOfU64_payloadHexPadded (u : Nat) :
    (float64BitsOfU64 u).payloadHexPadded
      = padZeros 13 (bitsToHexPadded (float64BitsOfU64 u).mantissaBitsStr) := rfl

theorem float64Bits_bits_length (p : Nat) : (float64Bits p).bits.length = 64 := by
  rw [float64Bits, float64BitsOfU64_bits, toBitsString64, List.length_append,
    toBitsString32_length, toBitsString32_length]

theorem float64Bits_mantissaBitsStr_length (p : Nat) :
    (float64Bits p).mantissaBitsStr.length = 52 := by
  rw [float64Bits, float64BitsOfU64_mantissaBitsStr, List.length_drop, ← float64Bits,
    float64Bits_bits_length]

theorem float64Bits_exponentBitsStr_length (p : Nat) :
    (float64Bits p).exponentBitsStr.length = 11 := by
  rw [float64Bits, float64BitsOfU64_exponentBitsStr, List.length_take, List.length_drop,
    ← float64Bits, float64Bits_bits_length]
  norm_num

theorem float64Bits_hex_length (p : Nat) : (float64Bits p).hex.length = 16 := by
  rw [float64Bits, float64BitsOfU64_hex, toHex64, List.length_append, toHex32_length,
    toHex32_length]

theorem float32Bits_bits_length (p : Nat) : (float32Bits p).bits.length = 32 := by
  rw [float32Bits, float32BitsOfU32_bits, toBitsString32_length]

theorem float32Bits_mantissaBitsStr_length (p : Nat) :
    (float32Bits p).mantissaBitsStr.length = 23 := by
  rw [float32Bits, float32BitsOfU32_mantissaBitsStr, List.length_drop, ← float32Bits,
    float32Bits_bits_length]

theorem float32Bits_hex_length (p : Nat) : (float32Bits p).hex.length = 8 := by
  rw [float32Bits, float32BitsOfU32_hex, toHex32_length]

theorem bitlenAux_zero : ∀ fuel, bitlenAux fuel 0 = 0 := by
  intro fuel
  cases fuel <;> simp [bitlenAux]

theorem bitlenAux_spec : ∀ fuel n, n ≤ fuel →
    n < 2 ^ bitlenAux fuel n ∧ (n ≠ 0 → 2 ^ (bitlenAux fuel n - 1) ≤ n) := by
  intro fuel
  induction fuel with
  | zero =>
    intro n hn
    have h0 : n = 0 := by omega
    subst h0
    exact ⟨by norm_num [bitlenAux], fun h => absurd rfl h⟩
  | succ f ih =>
    intro n hn
    by_cases h0 : n = 0
    · subst h0
      exact ⟨by norm_num [bitlenAux], fun h => absurd rfl h⟩
    · have hrec : bitlenAux (f+1) n = bitlenAux f (n / 2) + 1 := by
        simp [bitlenAux, h0]
      have hdle : n / 2 ≤ f := by omega
      obtain ⟨ihu, ihl⟩ := ih (n / 2) hdle
      constructor
      · rw [hrec, pow_succ]
        omega
      · intro _
        rw [hrec]
        by_cases hd0 : n / 2 = 0
        · have h1 : n = 1 := by omega
          subst h1
          rw [hd0, bitlenAux_zero]
          norm_num
        · have hl := ihl hd0
          have hk : 1 ≤ bitlenAux f (n / 2) := by
            rcases Nat.eq_zero_or_pos (bitlenAux f (n / 2)) with h | h
            · rw [h, pow_zero] at ihu
              omega
            · exact h
          have h2 : bitlenAux f (n / 2) + 1 - 1 = (bitlenAux f (n / 2) - 1) + 1 := by omega
          rw [h2, pow_succ]
          omega

theorem bitlen_lt (n : Nat) : n < 2 ^ bitlen n := (bitlenAux_spec n n le_rfl).1

theorem bitlen_le (n : Nat) (h : n ≠ 0) : 2 ^ (bitlen n - 1) ≤ n :=
  (bitlenAux_spec n n le_rfl).2 h

theorem roundRatNE_le (a b k : Nat) (_hb : 0 < b) (h : a < b * k) : roundRatNE a b ≤ k := by
  simp only [roundRatNE]
  have hq : a / b < k := Nat.div_lt_of_lt_mul h
  split_ifs <;> omega

theorem fpExp_upper (num den : Nat) (_hnum : 0 < num) (hden : 0 < den) :
    num * 2 ^ ((-(fpExp num den + 1)).toNat) < den * 2 ^ ((fpExp num den + 1).toNat) := by
  have hnu : num < 2 ^ bitlen num := bitlen_lt num
  have hdl : 2 ^ (bitlen den - 1) ≤ den := bitlen_le den (by omega)
  have hlb1 : 1 ≤ bitlen den := by
    rcases Nat.eq_zero_or_pos (bitlen den) with h | h
    · have := bitlen_lt den
      rw [h, pow_zero] at this
      omega
    · exact h
  unfold fpExp
  by_cases hcond : den * 2 ^ ((((bitlen num : Int) - bitlen den)).toNat)
      ≤ num * 2 ^ ((-(((bitlen num : Int) - bitlen den))).toNat)
  · rw [if_pos hcond]
    by_cases hge : 0 ≤ (bitlen num : Int) - bitlen den + 1
    · have h1 : (-(((bitlen num : Int) - bitlen den) + 1)).toNat = 0 := by omega
      have h2 : (((bitlen num : Int) - bitlen den) + 1).toNat
          = bitlen num + 1 - bitlen den := by omega
      rw [h1, h2, pow_zero, Nat.mul_one]
      have hexp : (bitlen den - 1) + (bitlen num + 1 - bitlen den) = bitlen num := by omega
      calc num < 2 ^ bitlen num := hnu
        _ = 2 ^ (bitlen den - 1) * 2 ^ (bitlen num + 1 - bitlen den) := by
            rw [← pow_add, hexp]
        _ ≤ den * 2 ^ (bitlen num + 1 - bitlen den) := by
            exact Nat.mul_le_mul_right _ hdl
    · push_neg at hge
      have h1 : (-(((bitlen num : Int) - bitlen den) + 1)).toNat
          = bitlen den - bitlen num - 1 := by omega
      have h2 : ((((bitlen num : Int) - bitlen den)) + 1).toNat = 0 := by omega
      rw [h1, h2, pow_zero, Nat.mul_one]
      have hlab : bitlen num + 1 < bitlen den := by omega
      have hexp : bitlen num + (bitlen den - bitlen num - 1) = bitlen den - 1 := by omega
      calc num * 2 ^ (bitlen den - bitlen num - 1)
          < 2 ^ bitlen num * 2 ^ (bitlen den - bitlen num - 1) :=
            mul_lt_mul_of_pos_right hnu (pow_pos (by norm_num) _)
        _ = 2 ^ (bitlen den - 1) := by rw [← pow_add, hexp]
        _ ≤ den := hdl
  · rw [if_neg hcond]
    have h3 : ((bitlen num : Int) - bitlen den - 1 + 1) = (bitlen num : Int) - bitlen den := by
      ring
    rw [h3]
    push_neg at hcond
    exact hcond

theorem fpExp_sig_bound (num den : Nat) (hnum : 0 < num) (hden : 0 < den) (mb : Nat) :
    num * 2 ^ (((mb : Int) - fpExp num den).toNat)
      < den * 2 ^ ((-((mb : Int) - fpExp num den)).toNat) * 2 ^ (mb + 1) := by
  have hupper := fpExp_upper num den hnum hden
  by_cases h1 : fpExp num den ≤ (mb : Int)
  · have ht2 : (-((mb : Int) - fpExp num den)).toNat = 0 := by omega
    rw [ht2, pow_zero, Nat.mul_one]
    by_cases h2 : -1 ≤ fpExp num den
    · have hz : (-(fpExp num den + 1)).toNat = 0 := by omega
      rw [hz, pow_zero, Nat.mul_one] at hupper
      have hadd : (fpExp num den + 1).toNat + ((mb : Int) - fpExp num den).toNat = mb + 1 := by
        omega
      calc num * 2 ^ (((mb : Int) - fpExp num den).toNat)
          < den * 2 ^ ((fpExp num den + 1).toNat) * 2 ^ (((mb : Int) - fpExp num den).toNat) :=
            mul_lt_mul_of_pos_right hupper (pow_pos (by norm_num) _)
        _ = den * 2 ^ (mb + 1) := by rw [Nat.mul_assoc, ← pow_add, hadd]
    · push_neg at h2
      have hz : (fpExp num den + 1).toNat = 0 := by omega
      rw [hz, pow_zero, Nat.mul_one] at hupper
      have hadd : ((mb : Int) - fpExp num den).toNat = (-(fpExp num den + 1)).toNat + (mb + 1) := by
        omega
      rw [hadd, pow_add, ← Nat.mul_assoc]
      exact mul_lt_mul_of_pos_right hupper (pow_pos (by norm_num) _)
  · push_neg at h1
    have ht1 : (((mb : Int)) - fpExp num den).toNat = 0 := by omega
    have hz : (-(fpExp num den + 1)).toNat = 0 := by omega
    rw [ht1, pow_zero, Nat.mul_one]
    rw [hz, pow_zero, Nat.mul_one] at hupper
    have hadd : (-((mb : Int) - fpExp num den)).toNat + (mb + 1) = (fpExp num den + 1).toNat := by
      omega
    calc num < den * 2 ^ ((fpExp num den + 1).toNat) := hupper
      _ = den * 2 ^ ((-((mb : Int) - fpExp num den)).toNat) * 2 ^ (mb + 1) := by
          rw [Nat.mul_assoc, ← pow_add, hadd]

theorem isNaNPattern_false_of_exp (p : Nat) (h : p / 2^52 % 2^11 ≠ 2047) :
    isNaNPattern p = false := by
  unfold isNaNPattern
  rw [beq_eq_false_iff_ne.mpr h, Bool.false_and]

theorem isNaNPattern_false_of_mant (p : Nat) (h : p % 2^52 = 0) :
    isNaNPattern p = false := by
  unfold isNaNPattern
  rw [h]
  simp

theorem not_nan_exp_sub (sgn f : Nat) (_hs : sgn ≤ 1) (hf : f ≤ 2 ^ 52) :
    (sgn * 2 ^ (11 + 52) + f) / 2 ^ 52 % 2 ^ 11 ≠ 2047 := by
  omega

theorem not_nan_exp_normal (sgn be m : Nat) (_hs : sgn ≤ 1) (hbe : be ≤ 2046)
    (hm : m ≤ 2 ^ 52 - 1) :
    (sgn * 2 ^ (11 + 52) + be * 2 ^ 52 + m) / 2 ^ 52 % 2 ^ 11 ≠ 2047 := by
  omega

theorem not_nan_mant_inf (sgn : Nat) :
    (sgn * 2 ^ (11 + 52) + (2 ^ 11 - 1) * 2 ^ 52) % 2 ^ 52 = 0 := by
  omega

theorem binOfRat64_not_nan (sgn num den : Nat) (hs : sgn ≤ 1) (hden : 0 < den) :
    isNaNPattern (binOfRat 11 52 sgn num den) = false := by
  simp only [binOfRat]
  by_cases h0 : num = 0
  · rw [if_pos h0]
    interval_cases sgn <;> decide
  · rw [if_neg h0]
    by_cases hsub : fpExp num den < 1 - ((2^(11-1) - 1 : Nat) : Int)
    · rw [if_pos hsub]
      have hupper := fpExp_upper num den (by omega) hden
      have hle : fpExp num den + 1 ≤ -1022 := by
        have hc : ((2^(11-1) - 1 : Nat) : Int) = 1023 := by norm_num
        omega
      have h2 : (fpExp num den + 1).toNat = 0 := by omega
      rw [h2, pow_zero, Nat.mul_one] at hupper
      have ht : 1022 ≤ (-(fpExp num den + 1)).toNat := by omega
      have hmono : num * 2 ^ 1022 ≤ num * 2 ^ ((-(fpExp num den + 1)).toNat) :=
        Nat.mul_le_mul_left _ (Nat.pow_le_pow_right (by norm_num) ht)
      have hnd : num * 2 ^ 1022 < den := lt_of_le_of_lt hmono hupper
      have hf : roundRatNE (num * 2 ^ (2^(11-1) - 1 + 52 - 1)) den ≤ 2 ^ 52 := by
        have he : (2^(11-1) - 1 + 52 - 1 : Nat) = 1074 := by norm_num
        rw [he]
        refine roundRatNE_le _ _ _ hden ?_
        have hsplit : num * 2 ^ 1074 = num * 2 ^ 1022 * 2 ^ 52 := by
          rw [Nat.mul_assoc, ← pow_add]
        rw [hsplit]
        exact mul_lt_mul_of_pos_right hnd (pow_pos (by norm_num) _)
      exact isNaNPattern_false_of_exp _ (not_nan_exp_sub _ _ hs hf)
    · rw [if_neg hsub]
      have hsig : roundRatNE (num * 2 ^ (((52 : Nat) : Int) - fpExp num den).toNat)
          (den * 2 ^ (-(((52 : Nat) : Int) - fpExp num den)).toNat) ≤ 2 ^ 53 := by
        refine roundRatNE_le _ _ _ (Nat.mul_pos hden (pow_pos (by norm_num) _)) ?_
        have hb := fpExp_sig_bound num den (by omega) hden 52
        have h53 : (52 : Nat) + 1 = 53 := by norm_num
        rw [h53] at hb
        exact hb
      by_cases hc : roundRatNE (num * 2 ^ (((52 : Nat) : Int) - fpExp num den).toNat)
          (den * 2 ^ (-(((52 : Nat) : Int) - fpExp num den)).toNat) = 2 ^ (52 + 1)
      · rw [if_pos hc, if_pos hc]
        by_cases hov : (2^11 - 1 : Int)
            ≤ fpExp num den + 1 + ((2^(11-1) - 1 : Nat) : Int)
        · rw [if_pos hov]
          exact isNaNPattern_false_of_mant _ (not_nan_mant_inf _)
        · rw [if_neg hov]
          have hbe : (fpExp num den + 1 + ((2^(11-1) - 1 : Nat) : Int)).toNat ≤ 2046 := by
            have hc1 : (2^11 - 1 : Int) = 2047 := by norm_num
            omega
          exact isNaNPattern_false_of_exp _
            (not_nan_exp_normal _ _ _ hs hbe (by omega))
      · rw [if_neg hc, if_neg hc]
        by_cases hov : (2^11 - 1 : Int)
            ≤ fpExp num den + ((2^(11-1) - 1 : Nat) : Int)
        · rw [if_pos hov]
          exact isNaNPattern_false_of_mant _ (not_nan_mant_inf _)
        · rw [if_neg hov]
          have hbe : (fpExp num den + ((2^(11-1) - 1 : Nat) : Int)).toNat ≤ 2046 := by
            have hc1 : (2^11 - 1 : Int) = 2047 := by norm_num
            omega
          have hm : roundRatNE (num * 2 ^ (((52 : Nat) : Int) - fpExp num den).toNat)
              (den * 2 ^ (-(((52 : Nat) : Int) - fpExp num den)).toNat) - 2 ^ 52
                ≤ 2 ^ 52 - 1 := by
            have h53 : (2 : Nat) ^ (52 + 1) = 2 ^ 53 := by norm_num
            rw [h53] at hc
            omega
          exact isNaNPattern_false_of_exp _ (not_nan_exp_normal _ _ _ hs hbe hm)

theorem jsNumberOfDecimal_not_nan (l : List Char) :
    isNaNPattern (jsNumberOfDecimal l) = false := by
  simp only [jsNumberOfDecimal]
  split
  · split <;> decide
  · exact binOfRat64_not_nan _ _ _ (by split <;> norm_num) (pow_pos (by norm_num) _)

theorem parseSpecial_shape (t : List Char) (o : ParseOptions) (r : ParseResult)
    (h : parseSpecial t o = some r) :
    (∃ v nt, r = .Valid v nt) ∨
    (∃ nt, r = .Incomplete "incomplete NaN token".data nt) ∨
    (∃ nt, r = .Incomplete "incomplete Infinity token".data nt) := by
  simp only [parseSpecial] at h
  set body := (splitSign t).2 with hbody
  set cmp := if o.caseInsensitiveSpecials then body.map toLowerChar else body with hcmp
  by_cases h1 : (o.allowNaN
      && (cmp == if o.caseInsensitiveSpecials then "nan".data else "NaN".data)) = true
  · rw [if_pos h1] at h
    exact Or.inl ⟨_, _, (Option.some.inj h).symm⟩
  · rw [if_neg h1] at h
    by_cases h2 : (o.allowNaN && o.caseInsensitiveSpecials && cmp.isPrefixOf "nan".data
        && decide (cmp.length < 3) && isAlphaOnly body) = true
    · rw [if_pos h2] at h
      exact Or.inr (Or.inl ⟨_, (Option.some.inj h).symm⟩)
    · rw [if_neg h2] at h
      by_cases h3 : (o.allowInfinitySynonyms
          && ((cmp == if o.caseInsensitiveSpecials then "inf".data else "Inf".data)
            || (cmp == if o.caseInsensitiveSpecials then "infinity".data else "Infinity".data)))
          = true
      · rw [if_pos h3] at h
        exact Or.inl ⟨_, _, (Option.some.inj h).symm⟩
      · rw [if_neg h3] at h
        by_cases h4 : (o.allowInfinitySynonyms && o.caseInsensitiveSpecials
            && cmp.isPrefixOf "infinity".data && decide (cmp.length < 8)
            && isAlphaOnly body) = true
        · rw [if_pos h4] at h
          exact Or.inr (Or.inr ⟨_, (Option.some.inj h).symm⟩)
        · rw [if_neg h4] at h
          by_cases h5 : (o.allowInfinitySynonyms && o.caseInsensitiveSpecials
              && cmp.isPrefixOf "inf".data && decide (cmp.length < 3)
              && isAlphaOnly body) = true
          · exfalso
            apply h4
            simp only [Bool.and_eq_true, decide_eq_true_eq] at h5 ⊢
            obtain ⟨⟨⟨⟨ha, hb⟩, hpfx⟩, hlen⟩, halpha⟩ := h5
            have hpfx2 : ("inf".data : List Char) <+: "infinity".data :=
              List.isPrefixOf_iff_prefix.mp (by decide)
            exact ⟨⟨⟨⟨ha, hb⟩, List.isPrefixOf_iff_prefix.mpr
              ((List.isPrefixOf_iff_prefix.mp hpfx).trans hpfx2)⟩, by omega⟩, halpha⟩
          · rw [if_neg h5] at h
            exact absurd h (by simp)

theorem isIncompleteNumberToken_reasons (t : List Char) (o : ParseOptions) (reason : List Char)
    (h : isIncompleteNumberToken t o = some reason) :
    reason = "sign only".data ∨ reason = "dot only".data ∨
    reason = "exponent marker only".data ∨ reason = "exponent sign only".data := by
  simp only [isIncompleteNumberToken] at h
  split_ifs at h
  · exact Or.inl (Option.some.inj h).symm
  · exact Or.inr (Or.inl (Option.some.inj h).symm)
  · exact Or.inr (Or.inr (Or.inl (Option.some.inj h).symm))
  · exact Or.inr (Or.inr (Or.inr (Option.some.inj h).symm))

theorem parseResult_reasons (input : List Char) (o : ParseOptions) :
    (∃ v nt, ParseFloatingInput input o = .Valid v nt) ∨
    (∃ re nt, ParseFloatingInput input o = .Incomplete re nt ∧
      (re = "empty".data ∨ re = "incomplete NaN token".data ∨
       re = "incomplete Infinity token".data ∨ re = "sign only".data ∨
       re = "dot only".data ∨ re = "exponent marker only".data ∨
       re = "exponent sign only".data)) ∨
    (∃ re nt, ParseFloatingInput input o = .Invalid re nt ∧
      (re = "leading plus is not allowed".data ∨ re = "invalid numeric syntax".data ∨
       re = "infinity is not allowed".data)) := by
  simp only [ParseFloatingInput]
  by_cases h1 : (trimList input).isEmpty = true
  · rw [if_pos h1]
    exact Or.inr (Or.inl ⟨_, _, rfl, Or.inl rfl⟩)
  · rw [if_neg h1]
    by_cases h2 : (!o.allowLeadingPlus && (splitSign (trimList input)).1 == ['+']) = true
    · rw [if_pos h2]
      exact Or.inr (Or.inr ⟨_, _, rfl, Or.inl rfl⟩)
    · rw [if_neg h2]
      cases hps : parseSpecial (trimList input) o with
      | some r =>
        rcases parseSpecial_shape _ _ _ hps with ⟨v, nt, rfl⟩ | ⟨nt, rfl⟩ | ⟨nt, rfl⟩
        · exact Or.inl ⟨v, nt, rfl⟩
        · exact Or.inr (Or.inl ⟨_, nt, rfl, Or.inr (Or.inl rfl)⟩)
        · exact Or.inr (Or.inl ⟨_, nt, rfl, Or.inr (Or.inr (Or.inl rfl))⟩)
      | none =>
        cases hinc : isIncompleteNumberToken (trimList input) o with
        | some reason =>
          rcases isIncompleteNumberToken_reasons _ _ _ hinc with rfl | rfl | rfl | rfl
          · exact Or.inr (Or.inl ⟨_, _, rfl, Or.inr (Or.inr (Or.inr (Or.inl rfl)))⟩)
          · exact Or.inr (Or.inl ⟨_, _, rfl,
              Or.inr (Or.inr (Or.inr (Or.inr (Or.inl rfl))))⟩)
          · exact Or.inr (Or.inl ⟨_, _, rfl,
              Or.inr (Or.inr (Or.inr (Or.inr (Or.inr (Or.inl rfl)))))⟩)
          · exact Or.inr (Or.inl ⟨_, _, rfl,
              Or.inr (Or.inr (Or.inr (Or.inr (Or.inr (Or.inr rfl)))))⟩)
        | none =>
          by_cases h3 : (!isValidDecimalNumberSyntax (trimList input) o) = true
          · rw [if_pos h3]
            exact Or.inr (Or.inr ⟨_, _, rfl, Or.inr (Or.inl rfl)⟩)
          · rw [if_neg h3]
            rw [jsNumberOfDecimal_not_nan, if_neg Bool.false_ne_true]
            by_cases h4 : (!o.allowInfinitySynonyms
                && !isFinitePattern (jsNumberOfDecimal (trimList input))) = true
            · rw [if_pos h4]
              exact Or.inr (Or.inr ⟨_, _, rfl, Or.inr (Or.inr rfl)⟩)
            · rw [if_neg h4]
              exact Or.inl ⟨_, _, rfl⟩

/-! ### Claim theorems -/

/-- Claim C1: for every double value (any binary64 pattern `p`), the `kind`
field of `float32Bits p` and of `float64Bits p` is determined solely by the
extracted biased exponent and mantissa bits: exponent all-zero and mantissa
zero gives Zero; exponent all-zero and mantissa nonzero gives Subnormal;
exponent all-one (255 / 2047) and mantissa zero gives Infinity; exponent
all-one and mantissa nonzero gives NaN; any other exponent gives Normal. -/
theorem c1_kind_from_extracted_bits (p : Nat) :
    ((float32Bits p).exponentBits = 0 ∧ (float32Bits p).mantissaBits = 0 →
      (float32Bits p).kind = .Zero) ∧
    ((float32Bits p).exponentBits = 0 ∧ (float32Bits p).mantissaBits ≠ 0 →
      (float32Bits p).kind = .Subnormal) ∧
    ((float32Bits p).exponentBits = 255 ∧ (float32Bits p).mantissaBits = 0 →
      (float32Bits p).kind = .Infinity) ∧
    ((float32Bits p).exponentBits = 255 ∧ (float32Bits p).mantissaBits ≠ 0 →
      (float32Bits p).kind = .NaN) ∧
    ((float32Bits p).exponentBits ≠ 0 ∧ (float32Bits p).exponentBits ≠ 255 →
      (float32Bits p).kind = .Normal) ∧
    ((float64Bits p).exponentBits = 0 ∧ (float64Bits p).mantissaHigh = 0 ∧
        (float64Bits p).mantissaLow = 0 → (float64Bits p).kind = .Zero) ∧
    ((float64Bits p).exponentBits = 0 ∧
        ¬((float64Bits p).mantissaHigh = 0 ∧ (float64Bits p).mantissaLow = 0) →
      (float64Bits p).kind = .Subnormal) ∧
    ((float64Bits p).exponentBits = 2047 ∧ (float64Bits p).mantissaHigh = 0 ∧
        (float64Bits p).mantissaLow = 0 → (float64Bits p).kind = .Infinity) ∧
    ((float64Bits p).exponentBits = 2047 ∧
        ¬((float64Bits p).mantissaHigh = 0 ∧ (float64Bits p).mantissaLow = 0) →
      (float64Bits p).kind = .NaN) ∧
    ((float64Bits p).exponentBits ≠ 0 ∧ (float64Bits p).exponentBits ≠ 2047 →
      (float64Bits p).kind = .Normal) := by
  simp only [float32Bits, float64Bits, float32BitsOfU32_kind, float32BitsOfU32_exponentBits,
    float32BitsOfU32_mantissaBits, float64BitsOfU64_kind, float64BitsOfU64_exponentBits,
    float64BitsOfU64_mantissaHigh, float64BitsOfU64_mantissaLow]
  exact ⟨(classifyFloat32_cases _ _).1, (classifyFloat32_cases _ _).2.1,
    (classifyFloat32_cases _ _).2.2.1, (classifyFloat32_cases _ _).2.2.2.1,
    (classifyFloat32_cases _ _).2.2.2.2, (classifyFloat64_cases _ _ _).1,
    (classifyFloat64_cases _ _ _).2.1, (classifyFloat64_cases _ _ _).2.2.1,
    (classifyFloat64_cases _ _ _).2.2.2.1, (classifyFloat64_cases _ _ _).2.2.2.2⟩

/-- Witness for C1: the classification implications at the pattern of 1.0. -/
theorem c1_kind_from_extracted_bits_w :
    ((float32Bits 0x3ff0000000000000).exponentBits = 0 ∧
        (float32Bits 0x3ff0000000000000).mantissaBits = 0 →
      (float32Bits 0x3ff0000000000000).kind = .Zero) ∧
    ((float32Bits 0x3ff0000000000000).exponentBits = 0 ∧
        (float32Bits 0x3ff0000000000000).mantissaBits ≠ 0 →
      (float32Bits 0x3ff0000000000000).kind = .Subnormal) ∧
    ((float32Bits 0x3ff0000000000000).exponentBits = 255 ∧
        (float32Bits 0x3ff0000000000000).mantissaBits = 0 →
      (float32Bits 0x3ff0000000000000).kind = .Infinity) ∧
    ((float32Bits 0x3ff0000000000000).exponentBits = 255 ∧
        (float32Bits 0x3ff0000000000000).mantissaBits ≠ 0 →
      (float32Bits 0x3ff0000000000000).kind = .NaN) ∧
    ((float32Bits 0x3ff0000000000000).exponentBits ≠ 0 ∧
        (float32Bits 0x3ff0000000000000).exponentBits ≠ 255 →
      (float32Bits 0x3ff0000000000000).kind = .Normal) ∧
    ((float64Bits 0x3ff0000000000000).exponentBits = 0 ∧
        (float64Bits 0x3ff0000000000000).mantissaHigh = 0 ∧
        (float64Bits 0x3ff0000000000000).mantissaLow = 0 →
      (float64Bits 0x3ff0000000000000).kind = .Zero) ∧
    ((float64Bits 0x3ff0000000000000).exponentBits = 0 ∧
        ¬((float64Bits 0x3ff0000000000000).mantissaHigh = 0 ∧
            (float64Bits 0x3ff0000000000000).mantissaLow = 0) →
      (float64Bits 0x3ff0000000000000).kind = .Subnormal) ∧
    ((float64Bits 0x3ff0000000000000).exponentBits = 2047 ∧
        (float64Bits 0x3ff0000000000000).mantissaHigh = 0 ∧
        (float64Bits 0x3ff0000000000000).mantissaLow = 0 →
      (float64Bits 0x3ff0000000000000).kind = .Infinity) ∧
    ((float64Bits 0x3ff0000000000000).exponentBits = 2047 ∧
        ¬((float64Bits 0x3ff0000000000000).mantissaHigh = 0 ∧
            (float64Bits 0x3ff0000000000000).mantissaLow = 0) →
      (float64Bits 0x3ff0000000000000).kind = .NaN) ∧
    ((float64Bits 0x3ff0000000000000).exponentBits ≠ 0 ∧
        (float64Bits 0x3ff0000000000000).exponentBits ≠ 2047 →
      (float64Bits 0x3ff0000000000000).kind = .Normal) :=
  c1_kind_from_extracted_bits 0x3ff0000000000000

/-- Claim C3: with default options, the boundary literals classify exactly
as specified: `""`, `"-"`, `"."`, `"1e"`, `"1e-"`, `"infi"` are Incomplete
with their given reasons, and `"1ee3"`, `"--1"`, `"e3"`, `"1e1.2"` are
Invalid. -/
theorem c3_boundary_literals :
    ParseFloatingInput "".data = .Incomplete "empty".data [] ∧
    ParseFloatingInput "-".data = .Incomplete "sign only".data "-".data ∧
    ParseFloatingInput ".".data = .Incomplete "dot only".data ".".data ∧
    ParseFloatingInput "1e".data = .Incomplete "exponent marker only".data "1e".data ∧
    ParseFloatingInput "1e-".data = .Incomplete "exponent sign only".data "1e-".data ∧
    ParseFloatingInput "infi".data
      = .Incomplete "incomplete Infinity token".data "infi".data ∧
    ParseFloatingInput "1ee3".data = .Invalid "invalid numeric syntax".data "1ee3".data ∧
    ParseFloatingInput "--1".data = .Invalid "invalid numeric syntax".data "--1".data ∧
    ParseFloatingInput "e3".data = .Invalid "invalid numeric syntax".data "e3".data ∧
    ParseFloatingInput "1e1.2".data = .Invalid "invalid numeric syntax".data "1e1.2".data := by
  decide

/-- Claim C5: the concrete end-to-end literals: `"1.0"` parses to 1.0
(pattern `0x3ff0000000000000`) with normalized text `"1.0"`; `"-1.25"`
parses to -1.25 (pattern `0xbff4000000000000`) with normalized text
`"-1.25"`; and the hex renderings are `"3f800000"`, `"3ff0000000000000"`,
and `"bfa00000"`. -/
theorem c5_literal_scenarios :
    ParseFloatingInput "1.0".data = .Valid 0x3ff0000000000000 "1.0".data ∧
    ParseFloatingInput "-1.25".data = .Valid 0xbff4000000000000 "-1.25".data ∧
    (float32Bits 0x3ff0000000000000).hex = "3f800000".data ∧
    (float64Bits 0x3ff0000000000000).hex = "3ff0000000000000".data ∧
    (float32Bits 0xbff4000000000000).hex = "bfa00000".data := by
  decide

/-- Claim C6: for every pattern `p`, `exponentUnbiased` equals
`exponentBits - 127` (resp. `- 1023`) when the kind is Normal, the fixed
`-126` (resp. `-1022`) when Subnormal, and is `none` when the kind is Zero,
Infinity or NaN. -/
theorem c6_exponent_unbiased (p : Nat) :
    ((float32Bits p).kind = .Normal →
      (float32Bits p).exponentUnbiased = some (((float32Bits p).exponentBits : Int) - 127)) ∧
    ((float32Bits p).kind = .Subnormal → (float32Bits p).exponentUnbiased = some (-126)) ∧
    ((float32Bits p).kind = .Zero ∨ (float32Bits p).kind = .Infinity ∨
        (float32Bits p).kind = .NaN → (float32Bits p).exponentUnbiased = none) ∧
    ((float64Bits p).kind = .Normal →
      (float64Bits p).exponentUnbiased = some (((float64Bits p).exponentBits : Int) - 1023)) ∧
    ((float64Bits p).kind = .Subnormal → (float64Bits p).exponentUnbiased = some (-1022)) ∧
    ((float64Bits p).kind = .Zero ∨ (float64Bits p).kind = .Infinity ∨
        (float64Bits p).kind = .NaN → (float64Bits p).exponentUnbiased = none) := by
  have h32 : ∀ u : Nat, (float32BitsOfU32 u).exponentUnbiased
      = (if (float32BitsOfU32 u).kind = .Normal
          then some (((float32BitsOfU32 u).exponentBits : Int) - 127)
          else if (float32BitsOfU32 u).kind = .Subnormal then some (-126) else none) :=
    fun u => rfl
  have h64 : ∀ u : Nat, (float64BitsOfU64 u).exponentUnbiased
      = (if (float64BitsOfU64 u).kind = .Normal
          then some (((float64BitsOfU64 u).exponentBits : Int) - 1023)
          else if (float64BitsOfU64 u).kind = .Subnormal then some (-1022) else none) :=
    fun u => rfl
  refine ⟨?_, ?_, ?_, ?_, ?_, ?_⟩
  · intro h; rw [float32Bits] at *; rw [h32, if_pos h]
  · intro h; rw [float32Bits] at *; rw [h32, if_neg (by rw [h]; decide), if_pos h]
  · intro h; rw [float32Bits] at *
    rcases h with h | h | h <;>
      rw [h32, if_neg (by rw [h]; decide), if_neg (by rw [h]; decide)]
  · intro h; rw [float64Bits] at *; rw [h64, if_pos h]
  · intro h; rw [float64Bits] at *; rw [h64, if_neg (by rw [h]; decide), if_pos h]
  · intro h; rw [float64Bits] at *
    rcases h with h | h | h <;>
      rw [h64, if_neg (by rw [h]; decide), if_neg (by rw [h]; decide)]

/-- Witness for C6: the implications at the pattern of 1.0 (kind Normal at
both widths) and at the pattern of +Infinity. -/
theorem c6_exponent_unbiased_w :
    (((float32Bits 0x3ff0000000000000).kind = .Normal →
      (float32Bits 0x3ff0000000000000).exponentUnbiased
        = some (((float32Bits 0x3ff0000000000000).exponentBits : Int) - 127)) ∧
    ((float32Bits 0x3ff0000000000000).kind = .Subnormal →
      (float32Bits 0x3ff0000000000000).exponentUnbiased = some (-126)) ∧
    ((float32Bits 0x3ff0000000000000).kind = .Zero ∨
        (float32Bits 0x3ff0000000000000).kind = .Infinity ∨
        (float32Bits 0x3ff0000000000000).kind = .NaN →
      (float32Bits 0x3ff0000000000000).exponentUnbiased = none) ∧
    ((float64Bits 0x3ff0000000000000).kind = .Normal →
      (float64Bits 0x3ff0000000000000).exponentUnbiased
        = some (((float64Bits 0x3ff0000000000000).exponentBits : Int) - 1023)) ∧
    ((float64Bits 0x3ff0000000000000).kind = .Subnormal →
      (float64Bits 0x3ff0000000000000).exponentUnbiased = some (-1022)) ∧
    ((float64Bits 0x3ff0000000000000).kind = .Zero ∨
        (float64Bits 0x3ff0000000000000).kind = .Infinity ∨
        (float64Bits 0x3ff0000000000000).kind = .NaN →
      (float64Bits 0x3ff0000000000000).exponentUnbiased = none)) ∧
    (float64Bits 0x7ff0000000000000).kind = .Infinity ∧
    (float64Bits 0x7ff0000000000000).exponentUnbiased = none :=
  ⟨c6_exponent_unbiased 0x3ff0000000000000, by decide,
    (c6_exponent_unbiased 0x7ff0000000000000).2.2.2.2.2 (Or.inr (Or.inl (by decide)))⟩

/-- Claim C2: for every binary64 pattern `p` of a double, the numeric fields
of `float64Bits p` reconstruct `p` exactly
(`signBit*2^63 + exponentBits*2^52 + mantissaHigh*2^32 + mantissaLow = p`),
and re-concatenating the sign, exponent and mantissa bit strings reproduces
the 64-character bits string, whose value is `p`, as is the value of the
16-character hex string. -/
theorem c2_float64_roundtrip (p : Nat) (hp : p < 2 ^ 64) :
    (float64Bits p).signBit * 2^63 + (float64Bits p).exponentBits * 2^52
        + (float64Bits p).mantissaHigh * 2^32 + (float64Bits p).mantissaLow = p ∧
    (float64Bits p).signBitsStr ++ (float64Bits p).exponentBitsStr
        ++ (float64Bits p).mantissaBitsStr = (float64Bits p).bits ∧
    (float64Bits p).bits.length = 64 ∧
    listVal 2 (float64Bits p).bits = p ∧
    (float64Bits p).hex.length = 16 ∧
    listVal 16 (float64Bits p).hex = p := by
  have pm : p % 2^64 = p := Nat.mod_eq_of_lt hp
  have hhi : p / 2^32 < 2^32 := by omega
  have hlo : p % 2^32 < 2^32 := Nat.mod_lt _ (by norm_num)
  have hbits : (float64Bits p).bits = toBitsString32 (p / 2^32) ++ toBitsString32 (p % 2^32) := by
    rw [float64Bits, float64BitsOfU64_bits, pm, toBitsString64]
  have hhex : (float64Bits p).hex = toHex32 (p / 2^32) ++ toHex32 (p % 2^32) := by
    rw [float64Bits, float64BitsOfU64_hex, pm, toHex64]
  have hlen : (float64Bits p).bits.length = 64 := by
    rw [hbits, List.length_append, toBitsString32_length, toBitsString32_length]
  refine ⟨?_, ?_, hlen, ?_, ?_, ?_⟩
  · rw [float64Bits, float64BitsOfU64_signBit, float64BitsOfU64_exponentBits,
      float64BitsOfU64_mantissaHigh, float64BitsOfU64_mantissaLow, pm]
    omega
  · rw [float64Bits, float64BitsOfU64_signBitsStr, float64BitsOfU64_exponentBitsStr,
      float64BitsOfU64_mantissaBitsStr, ← float64Bits]
    have h1 : ((float64Bits p).bits.drop 1).drop 11 = (float64Bits p).bits.drop 12 := by
      rw [List.drop_drop]
    have h2 : ((float64Bits p).bits.drop 1).take 11 ++ (float64Bits p).bits.drop 12
        = (float64Bits p).bits.drop 1 := by
      rw [← h1, List.take_append_drop]
    rw [List.append_assoc, h2, List.take_append_drop]
  · rw [hbits, listVal_append, toBitsString32_val _ hhi, toBitsString32_val _ hlo,
      toBitsString32_length]
    omega
  · rw [hhex, List.length_append, toHex32_length, toHex32_length]
  · rw [hhex, listVal_append, toHex32_val _ hhi, toHex32_val _ hlo, toHex32_length]
    have h16 : (16 : Nat) ^ 8 = 2 ^ 32 := by norm_num
    rw [h16]
    omega

/-- Witness for C2 at the pattern of 1.0. -/
theorem c2_float64_roundtrip_w :
    (0x3ff0000000000000 : Nat) < 2 ^ 64 ∧
    ((float64Bits 0x3ff0000000000000).signBit * 2^63
        + (float64Bits 0x3ff0000000000000).exponentBits * 2^52
        + (float64Bits 0x3ff0000000000000).mantissaHigh * 2^32
        + (float64Bits 0x3ff0000000000000).mantissaLow = 0x3ff0000000000000 ∧
      (float64Bits 0x3ff0000000000000).signBitsStr
          ++ (float64Bits 0x3ff0000000000000).exponentBitsStr
          ++ (float64Bits 0x3ff0000000000000).mantissaBitsStr
        = (float64Bits 0x3ff0000000000000).bits ∧
      (float64Bits 0x3ff0000000000000).bits.length = 64 ∧
      listVal 2 (float64Bits 0x3ff0000000000000).bits = 0x3ff0000000000000 ∧
      (float64Bits 0x3ff0000000000000).hex.length = 16 ∧
      listVal 16 (float64Bits 0x3ff0000000000000).hex = 0x3ff0000000000000) :=
  ⟨by norm_num, c2_float64_roundtrip 0x3ff0000000000000 (by norm_num)⟩

/-- Claim C8: the grouped serializations have fixed chunk shapes:
`float64Bits` splits the 11-bit exponent string 3+4+4 and the 52-bit
mantissa string into thirteen 4-bit chunks with a 13-digit padded payload
hex; `float32Bits` splits the 23-bit mantissa string into five 4-bit chunks
plus a final 3-bit chunk with a 6-digit padded payload hex; the payload
strings equal the mantissa strings; and `hexGrouped` groups the hex string
into 2-character bytes separated by single spaces
(`float32Bits 1.0 |>.hexGrouped = "3f 80 00 00"`). -/
theorem c8_grouped_shapes (p : Nat) :
    (float64Bits p).exponentBitsStr.length = 11 ∧
    (float64Bits p).exponentGrouped4
      = (float64Bits p).exponentBitsStr.take 3
          ++ ' ' :: (((float64Bits p).exponentBitsStr.drop 3).take 4)
          ++ ' ' :: (((float64Bits p).exponentBitsStr.drop 7).take 4) ∧
    ((float64Bits p).exponentBitsStr.take 3).length = 3 ∧
    (((float64Bits p).exponentBitsStr.drop 3).take 4).length = 4 ∧
    (((float64Bits p).exponentBitsStr.drop 7).take 4).length = 4 ∧
    (float64Bits p).exponentBitsStr.take 3
        ++ (((float64Bits p).exponentBitsStr.drop 3).take 4)
        ++ (((float64Bits p).exponentBitsStr.drop 7).take 4)
      = (float64Bits p).exponentBitsStr ∧
    (float64Bits p).mantissaBitsStr.length = 52 ∧
    (float64Bits p).mantissaGrouped4
      = List.intercalate [' '] (groupChunks 4 (float64Bits p).mantissaBitsStr) ∧
    (groupChunks 4 (float64Bits p).mantissaBitsStr).map List.length = List.replicate 13 4 ∧
    (groupChunks 4 (float64Bits p).mantissaBitsStr).flatten = (float64Bits p).mantissaBitsStr ∧
    (float64Bits p).payloadHexPadded.length = 13 ∧
    (float32Bits p).mantissaBitsStr.length = 23 ∧
    (float32Bits p).mantissaGrouped4
      = List.intercalate [' '] (groupChunks 4 (float32Bits p).mantissaBitsStr) ∧
    (groupChunks 4 (float32Bits p).mantissaBitsStr).map List.length = [4, 4, 4, 4, 4, 3] ∧
    (groupChunks 4 (float32Bits p).mantissaBitsStr).flatten = (float32Bits p).mantissaBitsStr ∧
    (float32Bits p).payloadHexPadded.length = 6 ∧
    (float64Bits p).payloadBitsStr = (float64Bits p).mantissaBitsStr ∧
    (float64Bits p).payloadGrouped4 = (float64Bits p).mantissaGrouped4 ∧
    (float32Bits p).payloadBitsStr = (float32Bits p).mantissaBitsStr ∧
    (float32Bits p).payloadGrouped4 = (float32Bits p).mantissaGrouped4 ∧
    (float64Bits p).hexGrouped = List.intercalate [' '] (groupChunks 2 (float64Bits p).hex) ∧
    (groupChunks 2 (float64Bits p).hex).map List.length = List.replicate 8 2 ∧
    (groupChunks 2 (float64Bits p).hex).flatten = (float64Bits p).hex ∧
    (float32Bits p).hexGrouped = List.intercalate [' '] (groupChunks 2 (float32Bits p).hex) ∧
    (groupChunks 2 (float32Bits p).hex).map List.length = List.replicate 4 2 ∧
    (groupChunks 2 (float32Bits p).hex).flatten = (float32Bits p).hex ∧
    (float32Bits 0x3ff0000000000000).hexGrouped = "3f 80 00 00".data := by
  have he11 : (float64Bits p).exponentBitsStr.length = 11 := float64Bits_exponentBitsStr_length p
  have hm52 : (float64Bits p).mantissaBitsStr.length = 52 := float64Bits_mantissaBitsStr_length p
  have hm23 : (float32Bits p).mantissaBitsStr.length = 23 := float32Bits_mantissaBitsStr_length p
  have hx16 : (float64Bits p).hex.length = 16 := float64Bits_hex_length p
  have hx8 : (float32Bits p).hex.length = 8 := float32Bits_hex_length p
  refine ⟨he11, float64BitsOfU64_exponentGrouped4 p, ?_, ?_, ?_, ?_, hm52,
    float64BitsOfU64_mantissaGrouped4 p, ?_, groupChunks_flatten 4 (by norm_num) _,
    ?_, hm23, float32BitsOfU32_mantissaGrouped4 _, ?_, groupChunks_flatten 4 (by norm_num) _,
    ?_, float64BitsOfU64_payloadBitsStr p, float64BitsOfU64_payloadGrouped4 p,
    float32BitsOfU32_payloadBitsStr _, float32BitsOfU32_payloadGrouped4 _,
    float64BitsOfU64_hexGrouped p, ?_, groupChunks_flatten 2 (by norm_num) _,
    float32BitsOfU32_hexGrouped _, ?_, groupChunks_flatten 2 (by norm_num) _, by decide⟩
  · rw [List.length_take, he11]
    decide
  · rw [List.length_take, List.length_drop, he11]
    decide
  · rw [List.length_take, List.length_drop, he11]
    decide
  · have h1 : ((float64Bits p).exponentBitsStr.drop 7).take 4
        = (float64Bits p).exponentBitsStr.drop 7 := by
      apply List.take_of_length_le
      rw [List.length_drop, he11]
    have h2 : (float64Bits p).exponentBitsStr.drop 7
        = ((float64Bits p).exponentBitsStr.drop 3).drop 4 := by
      rw [List.drop_drop]
    rw [h1, h2, List.append_assoc, List.take_append_drop, List.take_append_drop]
  · rw [groupChunks_map_length 4 (by norm_num), hm52]
    decide
  · rw [float64Bits, float64BitsOfU64_payloadHexPadded, ← float64Bits]
    have hb : (bitsToHexPadded (float64Bits p).mantissaBitsStr).length = 13 := by
      rw [bitsToHexPadded_length, hm52]
      decide
    rw [padZeros_length _ _ (le_of_eq hb)]
  · rw [groupChunks_map_length 4 (by norm_num), hm23]
    decide
  · rw [float32Bits, float32BitsOfU32_payloadHexPadded, ← float32Bits]
    have hb : (bitsToHexPadded (float32Bits p).mantissaBitsStr).length = 6 := by
      rw [bitsToHexPadded_length, hm23]
      decide
    rw [padZeros_length _ _ (le_of_eq hb)]
  · rw [groupChunks_map_length 2 (by norm_num), hx16]
    decide
  · rw [groupChunks_map_length 2 (by norm_num), hx8]
    decide

/-- Claim C9: for every input string and every options value,
`ParseFloatingInput` never returns an Invalid outcome with reason
"parsed to NaN": every text matching the decimal-literal grammar converts
to a non-NaN double, so the defensive NaN branch after conversion is
unreachable. -/
theorem c9_no_parsed_to_nan (input : List Char) (o : ParseOptions) (nt : List Char) :
    ParseFloatingInput input o ≠ .Invalid "parsed to NaN".data nt := by
  intro h
  rcases parseResult_reasons input o with ⟨v, nt2, he⟩ | ⟨re, nt2, he, hr⟩ | ⟨re, nt2, he, hr⟩
  · rw [he] at h
    exact ParseResult.noConfusion h
  · rw [he] at h
    exact ParseResult.noConfusion h
  · rw [he] at h
    injection h with h1 h2
    rw [h1] at hr
    rcases hr with hr | hr | hr <;> exact absurd hr (by decide)

/-- Witness for C9 at a concrete input and the default options. -/
theorem c9_no_parsed_to_nan_w :
    ParseFloatingInput "1.0".data {} ≠ .Invalid "parsed to NaN".data "1.0".data :=
  c9_no_parsed_to_nan "1.0".data {} "1.0".data

/-- Claim C10: for every input string and every options value,
`ParseFloatingInput` never returns an Incomplete outcome with reason
"incomplete Inf token": every letters-only case-folded proper prefix of
"inf" is caught by the preceding "infinity"-prefix check, so the second
Infinity-prefix branch is dead code. -/
theorem c10_no_incomplete_inf_token (input : List Char) (o : ParseOptions) (nt : List Char) :
    ParseFloatingInput input o ≠ .Incomplete "incomplete Inf token".data nt := by
  intro h
  rcases parseResult_reasons input o with ⟨v, nt2, he⟩ | ⟨re, nt2, he, hr⟩ | ⟨re, nt2, he, hr⟩
  · rw [he] at h
    exact ParseResult.noConfusion h
  · rw [he] at h
    injection h with h1 h2
    rw [h1] at hr
    rcases hr with hr | hr | hr | hr | hr | hr | hr <;> exact absurd hr (by decide)
  · rw [he] at h
    exact ParseResult.noConfusion h

/-- Witness for C10 at a concrete input and the default options. -/
theorem c10_no_incomplete_inf_token_w :
    ParseFloatingInput "in".data {} ≠ .Incomplete "incomplete Inf token".data "in".data :=
  c10_no_incomplete_inf_token "in".data {} "in".data

theorem dropWhile_eq_self_of (p : Char → Bool) (l : List Char) (h : ∀ c ∈ l, p c = false) :
    l.dropWhile p = l := by
  cases l with
  | nil => rfl
  | cons c t =>
    rw [List.dropWhile_cons, h c (List.mem_cons_self c t)]
    rw [if_neg Bool.false_ne_true]

theorem trimList_eq_self (l : List Char) (h : ∀ c ∈ l, isJsSpace c = false) :
    trimList l = l := by
  unfold trimList
  rw [dropWhile_eq_self_of _ _ h,
    dropWhile_eq_self_of _ _ (fun c hc => h c (List.mem_reverse.mp hc)),
    List.reverse_reverse]

theorem isJsSpace_toLowerChar (c : Char) (h : isJsSpace c = true) : toLowerChar c = c := by
  simp only [isJsSpace, Bool.or_eq_true, decide_eq_true_eq] at h
  rcases h with ((((((((((h|h)|h)|h)|h)|h)|h)|h)|h)|h)|h) <;> subst h <;> decide

theorem not_space_of_lower_mem (c : Char) (L : List Char) (h : toLowerChar c ∈ L)
    (hL : ∀ x ∈ L, isJsSpace x = false) : isJsSpace c = false := by
  by_contra hc
  rw [Bool.not_eq_false] at hc
  rw [isJsSpace_toLowerChar c hc] at h
  have hf := hL c h
  rw [hf] at hc
  exact Bool.false_ne_true hc

theorem splitSign_cons_other (c : Char) (t : List Char) (h1 : c ≠ '+') (h2 : c ≠ '-') :
    splitSign (c :: t) = ([], c :: t) := by
  simp only [splitSign]
  split
  · rename_i heq
    rw [List.cons.injEq] at heq
    exact absurd heq.1 h1
  · rename_i heq
    rw [List.cons.injEq] at heq
    exact absurd heq.1 h2
  · rfl

theorem parse_of_special (input : List Char) (o : ParseOptions) (r : ParseResult)
    (htrim : trimList input = input)
    (hne : input.isEmpty = false)
    (hplus : (!o.allowLeadingPlus && (splitSign input).1 == ['+']) = false)
    (hps : parseSpecial input o = some r) :
    ParseFloatingInput input o = r := by
  simp only [ParseFloatingInput, htrim]
  rw [if_neg (by rw [hne]; exact Bool.false_ne_true)]
  rw [if_neg (by rw [hplus]; exact Bool.false_ne_true)]
  rw [hps]

theorem parseSpecial_nan (sgn body : List Char)
    (hs : splitSign (sgn ++ body) = (sgn, body))
    (hb : body.map toLowerChar = "nan".data) :
    parseSpecial (sgn ++ body) {} = some (.Valid jsNaNPattern (sgn ++ "NaN".data)) := by
  simp [parseSpecial, hs, hb]

theorem parseSpecial_inf (sgn body : List Char)
    (hs : splitSign (sgn ++ body) = (sgn, body))
    (hb : body.map toLowerChar = "inf".data ∨ body.map toLowerChar = "infinity".data) :
    parseSpecial (sgn ++ body) {}
      = some (.Valid (if sgn == ['-'] then negInfPattern else posInfPattern)
          (sgn ++ "Infinity".data)) := by
  rcases hb with hb | hb <;> simp [parseSpecial, hs, hb]

/-- Claim C4: with default options, the special-token path behaves as: an
optionally signed, case-insensitive exact "nan" is Valid with value NaN and
normalizedText sign + "NaN" (sign preserved); an optionally signed,
case-insensitive exact "inf" or "infinity" is Valid with value -Infinity
when the sign is "-" and +Infinity otherwise and normalizedText
sign + "Infinity"; "inf" itself is Valid while the letters-only proper
prefixes "i" and "in" are Incomplete. -/
theorem c4_special_tokens (sgn body : List Char)
    (hsgn : sgn = [] ∨ sgn = ['+'] ∨ sgn = ['-']) :
    (body.map toLowerChar = "nan".data →
      ParseFloatingInput (sgn ++ body) {} = .Valid jsNaNPattern (sgn ++ "NaN".data)) ∧
    (body.map toLowerChar = "inf".data ∨ body.map toLowerChar = "infinity".data →
      ParseFloatingInput (sgn ++ body) {}
        = .Valid (if sgn = ['-'] then negInfPattern else posInfPattern)
            (sgn ++ "Infinity".data)) ∧
    ParseFloatingInput "inf".data {} = .Valid posInfPattern "Infinity".data ∧
    ParseFloatingInput "i".data {} = .Incomplete "incomplete Infinity token".data "i".data ∧
    ParseFloatingInput "in".data {} = .Incomplete "incomplete Infinity token".data "in".data := by
  refine ⟨?_, ?_, by decide, by decide, by decide⟩
  · intro hb
    have hb0 := hb
    obtain ⟨c, rest, rfl⟩ : ∃ c rest, body = c :: rest := by
      cases body with
      | nil => exact absurd hb (by decide)
      | cons c rest => exact ⟨c, rest, rfl⟩
    have hbody_nospace : ∀ x ∈ c :: rest, isJsSpace x = false := by
      intro x hx
      refine not_space_of_lower_mem x ("nan".data) ?_ (by decide)
      rw [← hb]
      exact List.mem_map_of_mem toLowerChar hx
    have hlit : ("nan".data : List Char) = ['n', 'a', 'n'] := rfl
    rw [List.map_cons, hlit] at hb
    injection hb with hc _
    have hcp : c ≠ '+' := by
      intro h
      rw [h] at hc
      exact absurd hc (by decide)
    have hcm : c ≠ '-' := by
      intro h
      rw [h] at hc
      exact absurd hc (by decide)
    rcases hsgn with rfl | rfl | rfl
    · have hsplit : splitSign ([] ++ (c :: rest)) = ([], c :: rest) :=
        splitSign_cons_other c rest hcp hcm
      have htrim : trimList ([] ++ (c :: rest)) = [] ++ (c :: rest) :=
        trimList_eq_self _ hbody_nospace
      rw [parse_of_special _ _ _ htrim rfl (by rw [hsplit]; rfl)
        (parseSpecial_nan _ _ hsplit hb0)]
    · have hsplit : splitSign (['+'] ++ (c :: rest)) = (['+'], c :: rest) := rfl
      have htrim : trimList (['+'] ++ (c :: rest)) = ['+'] ++ (c :: rest) := by
        refine trimList_eq_self _ ?_
        intro x hx
        rcases List.mem_append.mp hx with hx | hx
        · rw [List.mem_singleton.mp hx]
          decide
        · exact hbody_nospace x hx
      rw [parse_of_special _ _ _ htrim rfl (by rfl) (parseSpecial_nan _ _ hsplit hb0)]
    · have hsplit : splitSign (['-'] ++ (c :: rest)) = (['-'], c :: rest) := rfl
      have htrim : trimList (['-'] ++ (c :: rest)) = ['-'] ++ (c :: rest) := by
        refine trimList_eq_self _ ?_
        intro x hx
        rcases List.mem_append.mp hx with hx | hx
        · rw [List.mem_singleton.mp hx]
          decide
        · exact hbody_nospace x hx
      rw [parse_of_special _ _ _ htrim rfl (by rfl) (parseSpecial_nan _ _ hsplit hb0)]
  · intro hb
    have hb0 := hb
    obtain ⟨c, rest, rfl⟩ : ∃ c rest, body = c :: rest := by
      cases body with
      | nil => rcases hb with hb | hb <;> exact absurd hb (by decide)
      | cons c rest => exact ⟨c, rest, rfl⟩
    have hbody_nospace : ∀ x ∈ c :: rest, isJsSpace x = false := by
      intro x hx
      rcases hb with hb | hb
      · refine not_space_of_lower_mem x ("inf".data) ?_ (by decide)
        rw [← hb]
        exact List.mem_map_of_mem toLowerChar hx
      · refine not_space_of_lower_mem x ("infinity".data) ?_ (by decide)
        rw [← hb]
        exact List.mem_map_of_mem toLowerChar hx
    have hc : toLowerChar c = 'i' := by
      rcases hb with hb | hb
      · have hlit : ("inf".data : List Char) = ['i', 'n', 'f'] := rfl
        rw [List.map_cons, hlit] at hb
        injection hb with hc _
      · have hlit : ("infinity".data : List Char)
            = ['i', 'n', 'f', 'i', 'n', 'i', 't', 'y'] := rfl
        rw [List.map_cons, hlit] at hb
        injection hb with hc _
    have hcp : c ≠ '+' := by
      intro h
      rw [h] at hc
      exact absurd hc (by decide)
    have hcm : c ≠ '-' := by
      intro h
      rw [h] at hc
      exact absurd hc (by decide)
    rcases hsgn with rfl | rfl | rfl
    · have hsplit : splitSign ([] ++ (c :: rest)) = ([], c :: rest) :=
        splitSign_cons_other c rest hcp hcm
      have htrim : trimList ([] ++ (c :: rest)) = [] ++ (c :: rest) :=
        trimList_eq_self _ hbody_nospace
      rw [parse_of_special _ _ _ htrim rfl (by rw [hsplit]; rfl)
        (parseSpecial_inf _ _ hsplit hb0)] <;> decide
    · have hsplit : splitSign (['+'] ++ (c :: rest)) = (['+'], c :: rest) := rfl
      have htrim : trimList (['+'] ++ (c :: rest)) = ['+'] ++ (c :: rest) := by
        refine trimList_eq_self _ ?_
        intro x hx
        rcases List.mem_append.mp hx with hx | hx
        · rw [List.mem_singleton.mp hx]
          decide
        · exact hbody_nospace x hx
      rw [parse_of_special _ _ _ htrim rfl (by rfl)
        (parseSpecial_inf _ _ hsplit hb0)] <;> decide
    · have hsplit : splitSign (['-'] ++ (c :: rest)) = (['-'], c :: rest) := rfl
      have htrim : trimList (['-'] ++ (c :: rest)) = ['-'] ++ (c :: rest) := by
        refine trimList_eq_self _ ?_
        intro x hx
        rcases List.mem_append.mp hx with hx | hx
        · rw [List.mem_singleton.mp hx]
          decide
        · exact hbody_nospace x hx
      rw [parse_of_special _ _ _ htrim rfl (by rfl)
        (parseSpecial_inf _ _ hsplit hb0)] <;> decide

/-- Witness for C4: concrete signed, mixed-case special tokens through the
classifier. -/
theorem c4_special_tokens_w :
    ParseFloatingInput "-NAN".data {} = .Valid jsNaNPattern "-NaN".data ∧
    ParseFloatingInput "+InFiNiTy".data {} = .Valid posInfPattern "+Infinity".data := by
  constructor
  · have h := (c4_special_tokens ['-'] ['N', 'A', 'N'] (Or.inr (Or.inr rfl))).1 (by decide)
    exact h
  · have h := (c4_special_tokens ['+'] ['I', 'n', 'F', 'i', 'N', 'i', 'T', 'y']
      (Or.inr (Or.inl rfl))).2.1 (Or.inr (by decide))
    simpa using h

theorem isDigitChar_not_alpha (c : Char) (h : isDigitChar c = true) :
    isAsciiLetter c = false := by
  simp only [isDigitChar, Bool.and_eq_true, decide_eq_true_eq] at h
  by_contra hc
  rw [Bool.not_eq_false] at hc
  simp only [isAsciiLetter, Bool.or_eq_true, Bool.and_eq_true, decide_eq_true_eq] at hc
  omega

theorem toLowerChar_digit (c : Char) (h : isDigitChar c = true) : toLowerChar c = c := by
  simp only [isDigitChar, Bool.and_eq_true, decide_eq_true_eq] at h
  unfold toLowerChar
  rw [if_neg (by omega)]

theorem digit_dot_not_space (c : Char) (h : (isDigitChar c || c == '.') = true) :
    isJsSpace c = false := by
  rw [Bool.or_eq_true] at h
  rcases h with h | h
  · by_contra hc
    rw [Bool.not_eq_false] at hc
    simp only [isJsSpace, Bool.or_eq_true, decide_eq_true_eq] at hc
    rcases hc with ((((((((((hc|hc)|hc)|hc)|hc)|hc)|hc)|hc)|hc)|hc)|hc) <;>
      subst hc <;> exact absurd h (by decide)
  · rw [beq_iff_eq] at h
    subst h
    decide

theorem digit_dot_not_sign (c : Char) (h : (isDigitChar c || c == '.') = true) :
    c ≠ '+' ∧ c ≠ '-' := by
  constructor <;> intro hc <;> subst hc <;> exact absurd h (by decide)

theorem isExpChar_cases (c : Char) (h : isExpChar c = true) : c = 'e' ∨ c = 'E' := by
  simp only [isExpChar, Bool.or_eq_true, beq_iff_eq] at h
  exact h

theorem dropWhile_head_false (p : Char → Bool) :
    ∀ (l : List Char) (c : Char) (r : List Char), l.dropWhile p = c :: r → p c = false := by
  intro l
  induction l with
  | nil => intro c r h; exact absurd h (by simp)
  | cons a t ih =>
    intro c r h
    rw [List.dropWhile_cons] at h
    by_cases hp : p a = true
    · rw [if_pos hp] at h
      exact ih c r h
    · rw [if_neg hp] at h
      rw [Bool.not_eq_true] at hp
      injection h with h1 _
      rw [← h1]
      exact hp

theorem getLast?_of_all (p : Char → Bool) :
    ∀ (l : List Char), l ≠ [] → l.all p = true →
      ∃ c, l.getLast? = some c ∧ p c = true := by
  intro l
  induction l with
  | nil => intro h; exact absurd rfl h
  | cons c t ih =>
    intro _ hall
    rw [List.all_cons, Bool.and_eq_true] at hall
    cases t with
    | nil => exact ⟨c, rfl, hall.1⟩
    | cons b u =>
      obtain ⟨x, hx, hp⟩ := ih (by simp) hall.2
      exact ⟨x, by rw [List.getLast?_cons_cons]; exact hx, hp⟩

theorem splitSign_append (l : List Char) : (splitSign l).1 ++ (splitSign l).2 = l := by
  simp only [splitSign]
  split <;> rfl

theorem splitSign_cases (l : List Char) :
    splitSign l = ([], l) ∨ (∃ r, l = '+' :: r ∧ splitSign l = (['+'], r)) ∨
      (∃ r, l = '-' :: r ∧ splitSign l = (['-'], r)) := by
  cases l with
  | nil => exact Or.inl rfl
  | cons c t =>
    by_cases h1 : c = '+'
    · subst h1
      exact Or.inr (Or.inl ⟨t, rfl, rfl⟩)
    · by_cases h2 : c = '-'
      · subst h2
        exact Or.inr (Or.inr ⟨t, rfl, rfl⟩)
      · exact Or.inl (splitSign_cons_other c t h1 h2)

theorem splitSign_sign_chars (l : List Char) :
    (splitSign l).1 = [] ∨ (splitSign l).1 = ['+'] ∨ (splitSign l).1 = ['-'] := by
  rcases splitSign_cases l with h | ⟨r, _, h⟩ | ⟨r, _, h⟩ <;> rw [h]
  · exact Or.inl rfl
  · exact Or.inr (Or.inl rfl)
  · exact Or.inr (Or.inr rfl)

theorem matchesMantissa_ne_nil (l : List Char) (h : matchesMantissa l = true) : l ≠ [] := by
  intro hl
  subst hl
  exact absurd h (by decide)

theorem matchesMantissa_head (l : List Char) (h : matchesMantissa l = true) :
    ∃ c r, l = c :: r ∧ (isDigitChar c || c == '.') = true := by
  unfold matchesMantissa at h
  by_cases hd : l.head? = some '.'
  · cases l with
    | nil => exact absurd hd (by simp)
    | cons c r =>
      rw [List.head?_cons, Option.some.injEq] at hd
      subst hd
      exact ⟨'.', r, rfl, by decide⟩
  · rw [if_neg hd, Bool.and_eq_true] at h
    obtain ⟨hds, _⟩ := h
    cases l with
    | nil => exact absurd hds (by decide)
    | cons a t =>
      rw [List.takeWhile_cons] at hds
      by_cases hpa : isDigitChar a = true
      · exact ⟨a, t, rfl, by rw [hpa]; rfl⟩
      · rw [if_neg hpa] at hds
        exact absurd hds (by decide)

theorem matchesMantissa_chars (l : List Char) (h : matchesMantissa l = true) :
    ∀ c ∈ l, (isDigitChar c || c == '.') = true := by
  intro c hc
  unfold matchesMantissa at h
  by_cases hd : l.head? = some '.'
  · rw [if_pos hd, Bool.and_eq_true] at h
    obtain ⟨_, hall⟩ := h
    cases l with
    | nil => simp at hc
    | cons a t =>
      rw [List.head?_cons, Option.some.injEq] at hd
      subst hd
      rw [List.tail_cons, List.all_eq_true] at hall
      rcases List.mem_cons.mp hc with rfl | hct
      · decide
      · rw [hall c hct]
        rfl
  · rw [if_neg hd, Bool.and_eq_true] at h
    obtain ⟨_, hrest⟩ := h
    have hsplit := List.takeWhile_append_dropWhile (p := isDigitChar) (l := l)
    rw [← hsplit] at hc
    rcases List.mem_append.mp hc with hc | hc
    · rw [List.mem_takeWhile_imp hc]
      rfl
    · rw [Bool.or_eq_true] at hrest
      rcases hrest with hre | hre
      · rw [List.isEmpty_iff] at hre
        rw [hre] at hc
        simp at hc
      · rw [Bool.and_eq_true] at hre
        obtain ⟨hq, hall⟩ := hre
        cases hdw : l.dropWhile isDigitChar with
        | nil => rw [hdw] at hc; simp at hc
        | cons q qs =>
          rw [hdw] at hq
          simp only [List.head?_cons, decide_eq_true_eq, Option.some.injEq] at hq
          subst hq
          rw [hdw] at hc hall
          rw [List.tail_cons, List.all_eq_true] at hall
          rcases List.mem_cons.mp hc with rfl | hct
          · decide
          · rw [hall c hct]
            rfl

theorem matchesMantissa_last (l : List Char) (h : matchesMantissa l = true) :
    ∃ c, l.getLast? = some c ∧ (isDigitChar c || c == '.') = true :=
  getLast?_of_all _ l (matchesMantissa_ne_nil l h)
    (List.all_eq_true.mpr (matchesMantissa_chars l h))

theorem matchesMantissa_digit (l : List Char) (h : matchesMantissa l = true) :
    ∃ d ∈ l, isDigitChar d = true := by
  unfold matchesMantissa at h
  by_cases hd : l.head? = some '.'
  · rw [if_pos hd, Bool.and_eq_true] at h
    obtain ⟨hne, hall⟩ := h
    cases l with
    | nil => simp at hd
    | cons a t =>
      cases t with
      | nil => simp at hne
      | cons b u =>
        rw [List.tail_cons, List.all_cons, Bool.and_eq_true] at hall
        exact ⟨b, List.mem_cons_of_mem a (List.mem_cons_self b u), hall.1⟩
  · rw [if_neg hd, Bool.and_eq_true] at h
    obtain ⟨hds, _⟩ := h
    cases hl : l.takeWhile isDigitChar with
    | nil => rw [hl] at hds; exact absurd hds (by decide)
    | cons c r =>
      have hcm : c ∈ l.takeWhile isDigitChar := by
        rw [hl]
        exact List.mem_cons_self c r
      exact ⟨c, (List.takeWhile_sublist _).subset hcm, List.mem_takeWhile_imp hcm⟩

theorem getLast?_cons_ne_nil (a : Char) (t : List Char) (h : t ≠ []) :
    (a :: t).getLast? = t.getLast? := by
  cases t with
  | nil => exact absurd rfl h
  | cons b u => exact List.getLast?_cons_cons

theorem getLast?_append_right (l1 l2 : List Char) (h : l2 ≠ []) :
    (l1 ++ l2).getLast? = l2.getLast? := by
  induction l1 with
  | nil => rfl
  | cons a t ih =>
    rw [List.cons_append, getLast?_cons_ne_nil a (t ++ l2) ?_, ih]
    intro hnil
    rw [List.append_eq_nil] at hnil
    exact h hnil.2

theorem matchesDecimal_destruct (l : List Char) (h : matchesDecimal l = true) :
    matchesMantissa ((splitSign l).2.takeWhile (fun c => !isExpChar c)) = true ∧
    ((splitSign l).2.dropWhile (fun c => !isExpChar c) = [] ∨
      ∃ ec es, (splitSign l).2.dropWhile (fun c => !isExpChar c) = ec :: es ∧
        isExpChar ec = true ∧ (splitSign es).2 ≠ [] ∧
        (splitSign es).2.all isDigitChar = true) := by
  unfold matchesDecimal at h
  rw [Bool.and_eq_true] at h
  obtain ⟨hm, hrest⟩ := h
  refine ⟨hm, ?_⟩
  cases hdw : (splitSign l).2.dropWhile (fun c => !isExpChar c) with
  | nil => exact Or.inl rfl
  | cons ec es =>
    rw [hdw] at hrest
    have hrest2 : (!(splitSign es).2.isEmpty && (splitSign es).2.all isDigitChar) = true :=
      hrest
    rw [Bool.and_eq_true] at hrest2
    have hEC : isExpChar ec = true := by
      have hdf : (!isExpChar ec) = false :=
        dropWhile_head_false (fun c => !isExpChar c) (splitSign l).2 ec es hdw
      cases hb : isExpChar ec
      · rw [hb] at hdf
        exact absurd hdf (by decide)
      · rfl
    refine Or.inr ⟨ec, es, rfl, hEC, ?_, hrest2.2⟩
    intro hnil
    have ht := hrest2.1
    rw [hnil] at ht
    exact absurd ht (by decide)

theorem matchesDecimal_chars (l : List Char) (h : matchesDecimal l = true) :
    ∀ c ∈ l, isJsSpace c = false := by
  obtain ⟨hm, hrest⟩ := matchesDecimal_destruct l h
  intro c hc
  rw [← splitSign_append l] at hc
  rcases List.mem_append.mp hc with hc | hc
  · rcases splitSign_sign_chars l with hs | hs | hs <;> rw [hs] at hc
    · simp at hc
    · rw [List.mem_singleton] at hc
      subst hc
      decide
    · rw [List.mem_singleton] at hc
      subst hc
      decide
  · rw [← List.takeWhile_append_dropWhile (p := fun c => !isExpChar c)
      (l := (splitSign l).2)] at hc
    rcases List.mem_append.mp hc with hc | hc
    · exact digit_dot_not_space c (matchesMantissa_chars _ hm c hc)
    · rcases hrest with hre | ⟨ec, es, hre, hec, hne, hall⟩
      · rw [hre] at hc
        simp at hc
      · rw [hre] at hc
        rcases List.mem_cons.mp hc with rfl | hc
        · rcases isExpChar_cases c hec with rfl | rfl <;> decide
        · rw [← splitSign_append es] at hc
          rcases List.mem_append.mp hc with hc | hc
          · rcases splitSign_sign_chars es with hs | hs | hs <;> rw [hs] at hc
            · simp at hc
            · rw [List.mem_singleton] at hc
              subst hc
              decide
            · rw [List.mem_singleton] at hc
              subst hc
              decide
          · rw [List.all_eq_true] at hall
            exact digit_dot_not_space c (by rw [hall c hc]; rfl)

theorem matchesDecimal_digit (l : List Char) (h : matchesDecimal l = true) :
    ∃ d ∈ (splitSign l).2, isDigitChar d = true := by
  obtain ⟨hm, _⟩ := matchesDecimal_destruct l h
  obtain ⟨d, hd, hdd⟩ := matchesMantissa_digit _ hm
  exact ⟨d, (List.takeWhile_sublist _).subset hd, hdd⟩

theorem matchesDecimal_core_head (l : List Char) (h : matchesDecimal l = true) :
    ∃ c r, (splitSign l).2 = c :: r ∧ (isDigitChar c || c == '.') = true := by
  obtain ⟨hm, _⟩ := matchesDecimal_destruct l h
  obtain ⟨c, r, hcr, hp⟩ := matchesMantissa_head _ hm
  refine ⟨c, r ++ (splitSign l).2.dropWhile (fun c => !isExpChar c), ?_, hp⟩
  conv_lhs => rw [← List.takeWhile_append_dropWhile (p := fun c => !isExpChar c)
    (l := (splitSign l).2)]
  rw [hcr, List.cons_append]

theorem matchesDecimal_last (l : List Char) (h : matchesDecimal l = true) :
    ∃ c, l.getLast? = some c ∧ (isDigitChar c || c == '.') = true := by
  obtain ⟨hm, hrest⟩ := matchesDecimal_destruct l h
  have hcore : (splitSign l).2.takeWhile (fun c => !isExpChar c)
      ++ (splitSign l).2.dropWhile (fun c => !isExpChar c) = (splitSign l).2 :=
    List.takeWhile_append_dropWhile _ _
  have hl : (splitSign l).1 ++ (splitSign l).2 = l := splitSign_append l
  rcases hrest with hre | ⟨ec, es, hre, _, hne, hall⟩
  · obtain ⟨c, hc, hp⟩ := matchesMantissa_last _ hm
    have hcm := hcore
    rw [hre, List.append_nil] at hcm
    have hne2 : (splitSign l).2 ≠ [] := by
      rw [← hcm]
      exact matchesMantissa_ne_nil _ hm
    refine ⟨c, ?_, hp⟩
    rw [← hl, getLast?_append_right _ _ hne2, ← hcm]
    exact hc
  · obtain ⟨c, hc, hp⟩ := getLast?_of_all isDigitChar _ hne hall
    have hesne : es ≠ [] := by
      intro hnil
      exact hne (by rw [hnil]; rfl)
    have hne2 : (splitSign l).2 ≠ [] := by
      intro hnil
      rw [← hcore, hre] at hnil
      exact absurd hnil (by simp)
    have hes : (splitSign es).1 ++ (splitSign es).2 = es := splitSign_append es
    refine ⟨c, ?_, by rw [hp]; rfl⟩
    rw [← hl, getLast?_append_right _ _ hne2, ← hcore, hre,
      getLast?_append_right _ _ (by simp : (ec :: es : List Char) ≠ []),
      getLast?_cons_ne_nil _ _ hesne, ← hes, getLast?_append_right _ _ hne]
    exact hc

theorem matchesDecimal_plus (r : List Char) (hr : splitSign r = ([], r)) :
    matchesDecimal ('+' :: r) = matchesDecimal r := by
  unfold matchesDecimal
  rw [show splitSign ('+' :: r) = (['+'], r) from rfl, hr]

theorem jsNumberOfDecimal_plus (r : List Char) (hr : splitSign r = ([], r)) :
    jsNumberOfDecimal ('+' :: r) = jsNumberOfDecimal r := by
  simp only [jsNumberOfDecimal]
  rw [show splitSign ('+' :: r) = (['+'], r) from rfl, hr]
  rfl

theorem normalizeNumericText_not_plus (t : List Char) (o : ParseOptions)
    (h : ∀ r, t ≠ '+' :: r) : normalizeNumericText t o = t := by
  simp only [normalizeNumericText]

theorem parseSpecial_none_of_digit (t : List Char) (o : ParseOptions)
    (hd : ∃ d ∈ (splitSign t).2, isDigitChar d = true) :
    parseSpecial t o = none := by
  obtain ⟨d, hdm, hdd⟩ := hd
  have halpha : isAlphaOnly (splitSign t).2 = false := by
    unfold isAlphaOnly
    cases hb : (splitSign t).2.all isAsciiLetter
    · rw [Bool.and_false]
    · rw [List.all_eq_true] at hb
      have hda := isDigitChar_not_alpha d hdd
      rw [hb d hdm] at hda
      exact absurd hda (by decide)
  have htokm : ∀ (L : List Char), (∀ x ∈ L, isDigitChar x = false) →
      ((splitSign t).2.map toLowerChar == L) = false := by
    intro L hL
    refine beq_eq_false_iff_ne.mpr ?_
    intro heq
    have hmem : toLowerChar d ∈ L := heq ▸ List.mem_map_of_mem toLowerChar hdm
    rw [toLowerChar_digit d hdd] at hmem
    exact Bool.false_ne_true ((hL d hmem).symm.trans hdd)
  have htok : ∀ (L : List Char), (∀ x ∈ L, isDigitChar x = false) →
      ((splitSign t).2 == L) = false := by
    intro L hL
    refine beq_eq_false_iff_ne.mpr ?_
    intro heq
    have hmem : d ∈ L := heq ▸ hdm
    exact Bool.false_ne_true ((hL d hmem).symm.trans hdd)
  cases hci : o.caseInsensitiveSpecials
  · simp only [parseSpecial, hci, Bool.false_eq_true, Bool.and_false, Bool.false_and,
      Bool.and_true, Bool.true_and, eq_self_iff_true, if_true, if_false, ite_false, ite_true]
    rw [if_neg (by rw [htok "NaN".data (by decide), Bool.and_false]; exact Bool.false_ne_true)]
    rw [if_neg (by
      rw [htok "Inf".data (by decide), htok "Infinity".data (by decide), Bool.or_self,
        Bool.and_false]
      exact Bool.false_ne_true)]
  · simp only [parseSpecial, hci, Bool.true_eq_false, Bool.and_true, Bool.true_and,
      eq_self_iff_true, if_true, if_false, ite_false, ite_true]
    rw [if_neg (by rw [htokm "nan".data (by decide), Bool.and_false]; exact Bool.false_ne_true)]
    rw [if_neg (by rw [halpha, Bool.and_false]; exact Bool.false_ne_true)]
    rw [if_neg (by
      rw [htokm "inf".data (by decide), htokm "infinity".data (by decide), Bool.or_self,
        Bool.and_false]
      exact Bool.false_ne_true)]
    rw [if_neg (by rw [halpha, Bool.and_false]; exact Bool.false_ne_true)]
    rw [if_neg (by rw [halpha, Bool.and_false]; exact Bool.false_ne_true)]

theorem isIncompleteNumberToken_none (t : List Char) (o : ParseOptions)
    (h : matchesDecimal t = true) : isIncompleteNumberToken t o = none := by
  obtain ⟨c0, hlast, hp0⟩ := matchesDecimal_last t h
  have hne : ∀ (L : List Char), matchesDecimal L = false → (t == L) = false := by
    intro L hL
    refine beq_eq_false_iff_ne.mpr ?_
    intro heq
    rw [heq, hL] at h
    exact Bool.false_ne_true h
  have hnotE : (c0 == 'e' || c0 == 'E') = false := by
    have h1 : (c0 == 'e') = false := beq_eq_false_iff_ne.mpr (by
      intro heq
      subst heq
      exact absurd hp0 (by decide))
    have h2 : (c0 == 'E') = false := beq_eq_false_iff_ne.mpr (by
      intro heq
      subst heq
      exact absurd hp0 (by decide))
    rw [h1, h2]
    rfl
  have hnotS : (c0 == '+' || c0 == '-') = false := by
    obtain ⟨hnp, hnm⟩ := digit_dot_not_sign c0 hp0
    rw [beq_eq_false_iff_ne.mpr hnp, beq_eq_false_iff_ne.mpr hnm]
    rfl
  have h3 : matchesExpMarkerOnly t = false := by
    unfold matchesExpMarkerOnly
    rw [hlast]
    show ((c0 == 'e' || c0 == 'E') && matchesSignedMantissa t.dropLast) = false
    rw [hnotE, Bool.false_and]
  have h4 : matchesExpSignOnly t = false := by
    unfold matchesExpSignOnly
    rw [hlast]
    show ((c0 == '+' || c0 == '-') && matchesExpMarkerOnly t.dropLast) = false
    rw [hnotS, Bool.false_and]
  simp only [isIncompleteNumberToken]
  rw [if_neg (by
    rw [hne ['-'] (by decide), hne ['+'] (by decide), Bool.and_false, Bool.or_false]
    exact Bool.false_ne_true)]
  rw [if_neg (by
    rw [hne ['.'] (by decide), hne ['-', '.'] (by decide), hne ['+', '.'] (by decide),
      Bool.and_false, Bool.or_false, Bool.or_false]
    exact Bool.false_ne_true)]
  rw [if_neg (by rw [h3]; exact Bool.false_ne_true)]
  rw [if_neg (by rw [h4]; exact Bool.false_ne_true)]

theorem parse_valid_destruct (input : List Char) (o : ParseOptions) (v : Nat) (t : List Char)
    (h : ParseFloatingInput input o = .Valid v t) :
    (!o.allowLeadingPlus && (splitSign (trimList input)).1 == ['+']) = false ∧
    (parseSpecial (trimList input) o = some (.Valid v t) ∨
      (parseSpecial (trimList input) o = none ∧
       matchesDecimal (trimList input) = true ∧
       v = jsNumberOfDecimal (trimList input) ∧
       t = normalizeNumericText (trimList input) o ∧
       (!o.allowInfinitySynonyms && !isFinitePattern v) = false)) := by
  simp only [ParseFloatingInput] at h
  by_cases h1 : (trimList input).isEmpty = true
  · rw [if_pos h1] at h
    exact ParseResult.noConfusion h
  · rw [if_neg h1] at h
    by_cases h2 : (!o.allowLeadingPlus && (splitSign (trimList input)).1 == ['+']) = true
    · rw [if_pos h2] at h
      exact ParseResult.noConfusion h
    · rw [if_neg h2] at h
      refine ⟨Bool.eq_false_iff.mpr h2, ?_⟩
      cases hps : parseSpecial (trimList input) o with
      | some r =>
        rw [hps] at h
        have h' : r = .Valid v t := h
        exact Or.inl (by rw [h'])
      | none =>
        rw [hps] at h
        cases hinc : isIncompleteNumberToken (trimList input) o with
        | some reason =>
          rw [hinc] at h
          have h' : ParseResult.Incomplete reason (trimList input) = .Valid v t := h
          exact ParseResult.noConfusion h'
        | none =>
          rw [hinc] at h
          by_cases h3 : (!isValidDecimalNumberSyntax (trimList input) o) = true
          · rw [if_pos h3] at h
            have h' : ParseResult.Invalid "invalid numeric syntax".data (trimList input)
                = .Valid v t := h
            exact ParseResult.noConfusion h'
          · rw [if_neg h3] at h
            rw [jsNumberOfDecimal_not_nan (trimList input)] at h
            rw [if_neg Bool.false_ne_true] at h
            by_cases h4 : (!o.allowInfinitySynonyms
                && !isFinitePattern (jsNumberOfDecimal (trimList input))) = true
            · rw [if_pos h4] at h
              exact ParseResult.noConfusion h
            · rw [if_neg h4] at h
              have h5 : ParseResult.Valid (jsNumberOfDecimal (trimList input))
                  (normalizeNumericText (trimList input) o) = .Valid v t := h
              injection h5 with hv ht
              have hmd : matchesDecimal (trimList input) = true := by
                cases hx : isValidDecimalNumberSyntax (trimList input) o
                · exact absurd (by rw [hx]; rfl :
                    (!isValidDecimalNumberSyntax (trimList input) o) = true) h3
                · simp only [isValidDecimalNumberSyntax] at hx
                  rw [if_neg (by rw [Bool.eq_false_iff.mpr h2]; exact Bool.false_ne_true)] at hx
                  exact hx
              refine Or.inr ⟨rfl, hmd, hv.symm, ht.symm, ?_⟩
              rw [← hv]
              exact Bool.eq_false_iff.mpr h4

theorem parseSpecial_valid_destruct (t : List Char) (o : ParseOptions) (v : Nat) (nt : List Char)
    (h : parseSpecial t o = some (.Valid v nt)) :
    (o.allowNaN = true ∧ v = jsNaNPattern ∧ nt = (splitSign t).1 ++ "NaN".data) ∨
    (o.allowInfinitySynonyms = true ∧
      v = (if (splitSign t).1 == ['-'] then negInfPattern else posInfPattern) ∧
      nt = (splitSign t).1 ++ "Infinity".data) := by
  simp only [parseSpecial] at h
  set body := (splitSign t).2 with hbody
  set cmp := if o.caseInsensitiveSpecials then body.map toLowerChar else body with hcmp
  by_cases h1 : (o.allowNaN
      && (cmp == if o.caseInsensitiveSpecials then "nan".data else "NaN".data)) = true
  · rw [if_pos h1] at h
    injection Option.some.inj h with hv hnt
    refine Or.inl ⟨?_, hv.symm, hnt.symm⟩
    rw [Bool.and_eq_true] at h1
    exact h1.1
  · rw [if_neg h1] at h
    by_cases h2 : (o.allowNaN && o.caseInsensitiveSpecials && cmp.isPrefixOf "nan".data
        && decide (cmp.length < 3) && isAlphaOnly body) = true
    · rw [if_pos h2] at h
      exact ParseResult.noConfusion (Option.some.inj h)
    · rw [if_neg h2] at h
      by_cases h3 : (o.allowInfinitySynonyms
          && ((cmp == if o.caseInsensitiveSpecials then "inf".data else "Inf".data)
            || (cmp == if o.caseInsensitiveSpecials then "infinity".data else "Infinity".data)))
          = true
      · rw [if_pos h3] at h
        injection Option.some.inj h with hv hnt
        refine Or.inr ⟨?_, hv.symm, hnt.symm⟩
        rw [Bool.and_eq_true] at h3
        exact h3.1
      · rw [if_neg h3] at h
        by_cases h4 : (o.allowInfinitySynonyms && o.caseInsensitiveSpecials
            && cmp.isPrefixOf "infinity".data && decide (cmp.length < 8)
            && isAlphaOnly body) = true
        · rw [if_pos h4] at h
          exact ParseResult.noConfusion (Option.some.inj h)
        · rw [if_neg h4] at h
          by_cases h5 : (o.allowInfinitySynonyms && o.caseInsensitiveSpecials
              && cmp.isPrefixOf "inf".data && decide (cmp.length < 3)
              && isAlphaOnly body) = true
          · rw [if_pos h5] at h
            exact ParseResult.noConfusion (Option.some.inj h)
          · rw [if_neg h5] at h
            exact Option.noConfusion h

theorem parse_nan_refeed (o : ParseOptions) (sgn : List Char)
    (hs : sgn = [] ∨ (sgn = ['+'] ∧ o.allowLeadingPlus = true) ∨ sgn = ['-'])
    (hn : o.allowNaN = true) :
    ParseFloatingInput (sgn ++ "NaN".data) o = .Valid jsNaNPattern (sgn ++ "NaN".data) := by
  obtain ⟨aLP, aIS, aN, ci⟩ := o
  have hn' : aN = true := hn
  subst hn'
  rcases hs with rfl | ⟨rfl, hP⟩ | rfl
  · cases aLP <;> cases aIS <;> cases ci <;> decide
  · have hP' : aLP = true := hP
    subst hP'
    cases aIS <;> cases ci <;> decide
  · cases aLP <;> cases aIS <;> cases ci <;> decide

theorem parse_inf_refeed (o : ParseOptions) (sgn : List Char)
    (hs : sgn = [] ∨ (sgn = ['+'] ∧ o.allowLeadingPlus = true) ∨ sgn = ['-'])
    (hi : o.allowInfinitySynonyms = true) :
    ParseFloatingInput (sgn ++ "Infinity".data) o
      = .Valid (if sgn == ['-'] then negInfPattern else posInfPattern)
        (sgn ++ "Infinity".data) := by
  obtain ⟨aLP, aIS, aN, ci⟩ := o
  have hi' : aIS = true := hi
  subst hi'
  rcases hs with rfl | ⟨rfl, hP⟩ | rfl
  · cases aLP <;> cases aN <;> cases ci <;> decide
  · have hP' : aLP = true := hP
    subst hP'
    cases aN <;> cases ci <;> decide
  · cases aLP <;> cases aN <;> cases ci <;> decide

theorem parse_numeric_eval (tt : List Char) (o : ParseOptions)
    (hdec : matchesDecimal tt = true)
    (hplus2 : (!o.allowLeadingPlus && (splitSign tt).1 == ['+']) = false)
    (hnorm : normalizeNumericText tt o = tt)
    (hinf : (!o.allowInfinitySynonyms && !isFinitePattern (jsNumberOfDecimal tt)) = false) :
    ParseFloatingInput tt o = .Valid (jsNumberOfDecimal tt) tt := by
  have htrim : trimList tt = tt := trimList_eq_self tt (matchesDecimal_chars tt hdec)
  have hne2 : tt.isEmpty = false := by
    obtain ⟨c, r, hcr, _⟩ := matchesDecimal_core_head tt hdec
    have happ := splitSign_append tt
    rw [hcr] at happ
    cases htt : tt with
    | nil =>
      rw [htt] at happ
      exact absurd happ (by simp)
    | cons a l => rfl
  have hsyn : isValidDecimalNumberSyntax tt o = true := by
    simp only [isValidDecimalNumberSyntax]
    rw [if_neg (by rw [hplus2]; exact Bool.false_ne_true)]
    exact hdec
  simp only [ParseFloatingInput, htrim]
  rw [if_neg (by rw [hne2]; exact Bool.false_ne_true)]
  rw [if_neg (by rw [hplus2]; exact Bool.false_ne_true)]
  rw [parseSpecial_none_of_digit tt o (matchesDecimal_digit tt hdec)]
  rw [isIncompleteNumberToken_none tt o hdec]
  rw [if_neg (by rw [hsyn]; decide)]
  rw [jsNumberOfDecimal_not_nan tt]
  rw [if_neg Bool.false_ne_true]
  rw [if_neg (by rw [hinf]; exact Bool.false_ne_true)]
  rw [hnorm]

/-- C7: if `ParseFloatingInput input o` returns `Valid v t` (value `v`,
normalized text `t`), then re-feeding the normalized text with the same
options returns `Valid v t` again — the same bit pattern and the same
normalized text. -/
theorem c7_valid_idempotent (input : List Char) (o : ParseOptions) (v : Nat) (t : List Char)
    (h : ParseFloatingInput input o = .Valid v t) :
    ParseFloatingInput t o = .Valid v t := by
  obtain ⟨hplus, hcase⟩ := parse_valid_destruct input o v t h
  rcases hcase with hsp | ⟨hnone, hdec, hv, ht, hinf⟩
  · have hshape : (splitSign (trimList input)).1 = [] ∨
        ((splitSign (trimList input)).1 = ['+'] ∧ o.allowLeadingPlus = true) ∨
        (splitSign (trimList input)).1 = ['-'] := by
      rcases splitSign_sign_chars (trimList input) with hs | hs | hs
      · exact Or.inl hs
      · refine Or.inr (Or.inl ⟨hs, ?_⟩)
        rw [hs] at hplus
        cases haLP : o.allowLeadingPlus
        · rw [haLP] at hplus
          exact absurd hplus (by decide)
        · rfl
      · exact Or.inr (Or.inr hs)
    rcases parseSpecial_valid_destruct _ _ _ _ hsp with ⟨hN, hveq, hnt⟩ | ⟨hI, hveq, hnt⟩
    · subst hveq
      subst hnt
      exact parse_nan_refeed o _ hshape hN
    · subst hveq
      subst hnt
      exact parse_inf_refeed o _ hshape hI
  · obtain ⟨c, r, hcore, hcp⟩ := matchesDecimal_core_head (trimList input) hdec
    have hcd : c ≠ '+' ∧ c ≠ '-' := digit_dot_not_sign c hcp
    rcases splitSign_cases (trimList input) with hs | ⟨rr, htt, hs⟩ | ⟨rr, htt, hs⟩
    · have htext : trimList input = c :: r := by
        rw [hs] at hcore
        exact hcore
      have hnorm : normalizeNumericText (trimList input) o = trimList input := by
        apply normalizeNumericText_not_plus
        intro r' hr'
        rw [htext] at hr'
        injection hr' with h1 _
        exact hcd.1 h1
      rw [hnorm] at ht
      subst ht
      subst hv
      exact parse_numeric_eval (trimList input) o hdec hplus hnorm hinf
    · have haLP : o.allowLeadingPlus = true := by
        rw [hs] at hplus
        cases haLP2 : o.allowLeadingPlus
        · rw [haLP2] at hplus
          have hX : (!false && ((['+'], rr).1 == ['+'])) = true := rfl
          exact absurd (hX.symm.trans hplus) (by decide)
        · rfl
      have hrr : rr = c :: r := by
        rw [hs] at hcore
        exact hcore
      have hsrr : splitSign rr = ([], rr) := by
        rw [hrr]
        exact splitSign_cons_other c r hcd.1 hcd.2
      have hdec2 : matchesDecimal rr = true := by
        have hmp := matchesDecimal_plus rr hsrr
        rw [htt, hmp] at hdec
        exact hdec
      have hjs : jsNumberOfDecimal (trimList input) = jsNumberOfDecimal rr := by
        rw [htt]
        exact jsNumberOfDecimal_plus rr hsrr
      have htrr : t = rr := by
        rw [ht, htt]
        simp only [normalizeNumericText]
        rw [if_pos haLP]
      have hplus3 : (!o.allowLeadingPlus && (splitSign rr).1 == ['+']) = false := by
        rw [hsrr, haLP]
        rfl
      have hnorm2 : normalizeNumericText rr o = rr := by
        apply normalizeNumericText_not_plus
        intro r' hr'
        rw [hrr] at hr'
        injection hr' with h1 _
        exact hcd.1 h1
      have hinf2 : (!o.allowInfinitySynonyms
          && !isFinitePattern (jsNumberOfDecimal rr)) = false := by
        rw [← hjs, ← hv]
        exact hinf
      rw [htrr, hv, hjs]
      exact parse_numeric_eval rr o hdec2 hplus3 hnorm2 hinf2
    · have hnorm : normalizeNumericText (trimList input) o = trimList input := by
        apply normalizeNumericText_not_plus
        intro r' hr'
        rw [htt] at hr'
        injection hr' with h1 _
        exact absurd h1 (by decide)
      rw [hnorm] at ht
      subst ht
      subst hv
      exact parse_numeric_eval (trimList input) o hdec hplus hnorm hinf

theorem c7_valid_idempotent_w :
    ParseFloatingInput " +1.0".data {} = .Valid 0x3ff0000000000000 "1.0".data ∧
    ParseFloatingInput "1.0".data {} = .Valid 0x3ff0000000000000 "1.0".data :=
  ⟨by decide, c7_valid_idempotent " +1.0".data {} 0x3ff0000000000000 "1.0".data (by decide)⟩

end Viewer
